import Mathlib

/-!
Verification of the alert-deduplication core of `deduplicate-alerts.py`
(examples/integration/scripts).

The script is a short-lived invocation against a durable file cache:
it fingerprints an alert, consults/updates a per-fingerprint JSON cache
file, sweeps expired files, and produces a suppress/allow verdict.

Shallow embedding conventions:
* Times (`time.time()`, `CACHE_DURATION`) are natural-number seconds and
  are passed explicitly (`now`, `ttl`).  The Python expiry test
  `time.time() - data['timestamp'] > CACHE_DURATION` agrees with the
  Nat-subtraction version whenever `now ≥ timestamp`; when `now <
  timestamp` the Python difference is negative, hence not `> ttl`, and
  truncated Nat subtraction gives `0`, also not `> ttl`, so the Bool
  outcomes coincide.
* The cache directory is a list of files keyed by file name
  (`<hash>.json`); we key directly by the hash string.  A file whose
  JSON fails to load is `FileContent.corrupt`.
* Fallible I/O is made explicit: each write takes a `writeOk` flag and
  each file carries a `deleteOk` flag saying whether `unlink` succeeds;
  `false` models the `except`-caught failure paths of the script.
-/

/-- The alert fields used by the script: `alert_data.get('service','')`
etc.  A missing dict key and an empty value are indistinguishable
through `.get(key, '')`, so fields are plain strings. -/
structure AlertData where
  service : String
  severity : String
  message : String
  alertType : String
  deriving Repr, DecidableEq

/-- One cache record, as serialized by `cache_alert` /
`is_duplicate_alert`: `{'timestamp': …, 'last_seen': …, 'count': …,
'alert_data': …}`.  `timestamp` is the creation time (firstSeen). -/
structure CacheEntry where
  timestamp : Nat
  last_seen : Nat
  count : Nat
  alert_data : AlertData
  deriving Repr, DecidableEq

/-- Contents of one cache file: either a record that `json.load` parses
back, or a malformed file on which `json.load` raises. -/
inductive FileContent where
  | ok (d : CacheEntry) : FileContent
  | corrupt : FileContent
  deriving Repr, DecidableEq

/-- One file of the cache directory.  `deleteOk` models whether an
`unlink` of this file succeeds (environment fact, not data). -/
structure CacheFile where
  name : String
  content : FileContent
  deleteOk : Bool
  deriving Repr, DecidableEq

/-- The cache directory. -/
abbrev Store := List CacheFile

/-- Look up the file for a hash (the script opens `<hash>.json`).
File names are unique on a filesystem, so the first hit is the file. -/
def storeFind : Store → String → Option CacheFile
  | [], _ => none
  | f :: fs, h => if f.name == h then some f else storeFind fs h

/-- Remove the file for a hash (`cache_file.unlink()`). -/
def storeErase : Store → String → Store
  | [], _ => []
  | f :: fs, h => if f.name == h then storeErase fs h else f :: storeErase fs h

/-- Write `content` to `<h>.json` (`open(cache_file, 'w')` +
`json.dump`): replaces the contents of an existing file, creates the
file otherwise.  A freshly created file gets `deleteOk := true` (the
flag describes the environment, not the data). -/
def storeWrite : Store → String → FileContent → Store
  | [], h, content => [⟨h, content, true⟩]
  | f :: fs, h, content =>
    if f.name == h then ⟨f.name, content, f.deleteOk⟩ :: fs
    else f :: storeWrite fs h content

/-- `is_duplicate_alert(alert_hash)`, with the cache state threaded
explicitly.  Returns the Bool result and the new state.
Source behavior:
* missing file → `False`;
* `json.load` raises (corrupt) → `except` branch → `False`, file left
  in place;
* entry expired (`now - timestamp > ttl`) → `unlink` and `False`
  (a failing unlink raises, is caught, and returns `False` with the
  file still present);
* otherwise → bump `count`, set `last_seen = now`, rewrite the file,
  return `True` (a failing write raises, is caught, returns `False`
  with the file unchanged). -/
def is_duplicate_alert (ttl now : Nat) (writeOk : Bool) (h : String)
    (st : Store) : Bool × Store :=
  match storeFind st h with
  | none => (false, st)
  | some f =>
    match f.content with
    | .corrupt => (false, st)
    | .ok d =>
      if now - d.timestamp > ttl then
        if f.deleteOk then (false, storeErase st h) else (false, st)
      else
        if writeOk then
          (true, storeWrite st h (.ok { d with last_seen := now, count := d.count + 1 }))
        else (false, st)

/-- `cache_alert(alert_hash, alert_data)`: unconditionally opens
`<hash>.json` with mode `'w'` and dumps a fresh record
`{'timestamp': now, 'last_seen': now, 'count': 1, 'alert_data': …}`.
A write failure is caught and logged; the function returns nothing
either way. -/
def cache_alert (now : Nat) (writeOk : Bool) (h : String)
    (alert_data : AlertData) (st : Store) : Store :=
  if writeOk then storeWrite st h (.ok ⟨now, now, 1, alert_data⟩) else st

/-- Recursion of `cleanup_expired_cache` over the directory listing.
Result: (files left on disk, `removed_count`, whether the scan was
aborted by an uncaught exception).
Per-file control flow in the source:
* `json.load` succeeds and the entry is expired → `unlink` inside the
  `try`; if the unlink raises, the inner `except` handler runs
  `cache_file.unlink()` again, which raises again and propagates to the
  outer handler, aborting the scan with the remaining files untouched;
* `json.load` succeeds, entry live → file kept, scan continues;
* `json.load` raises (corrupt) → inner `except` handler unlinks the
  file and counts it; a failing unlink there likewise aborts the scan. -/
def cleanupGo (ttl now : Nat) : List CacheFile → List CacheFile × Nat × Bool
  | [] => ([], 0, false)
  | f :: rest =>
    match f.content with
    | .corrupt =>
      if f.deleteOk then
        let r := cleanupGo ttl now rest
        (r.1, r.2.1 + 1, r.2.2)
      else (f :: rest, 0, true)
    | .ok d =>
      if now - d.timestamp > ttl then
        if f.deleteOk then
          let r := cleanupGo ttl now rest
          (r.1, r.2.1 + 1, r.2.2)
        else (f :: rest, 0, true)
      else
        let r := cleanupGo ttl now rest
        (f :: r.1, r.2.1, r.2.2)

/-- `cleanup_expired_cache()`.  The Python function returns `None`; the
`removed_count` it accumulates is only logged, and when the scan aborts
even the log of the count is skipped.  We return the post-state together
with the count and an aborted flag so that theorems can talk about the
observable effects. -/
def cleanup_expired_cache (ttl now : Nat) (st : Store) : List CacheFile × Nat × Bool :=
  cleanupGo ttl now st

example :
    cleanup_expired_cache 3600 10000
      [⟨"a", .ok ⟨1000, 1000, 2, ⟨"s", "x", "m", "t"⟩⟩, true⟩,
       ⟨"b", .ok ⟨9000, 9000, 1, ⟨"s", "x", "m", "t"⟩⟩, true⟩,
       ⟨"c", .corrupt, true⟩] =
    ([⟨"b", .ok ⟨9000, 9000, 1, ⟨"s", "x", "m", "t"⟩⟩, true⟩], 2, false) := by
  decide

example :
    is_duplicate_alert 3600 2000 true "a"
      [⟨"a", .ok ⟨1000, 1000, 1, ⟨"s", "x", "m", "t"⟩⟩, true⟩] =
    (true, [⟨"a", .ok ⟨1000, 2000, 2, ⟨"s", "x", "m", "t"⟩⟩, true⟩]) := by
  decide

/-! ## Normalizer (`normalize_message`)

The script applies six `re.sub` passes, collapses whitespace, strips and
lower-cases.  We embed each regular expression as a matcher that, given
whether the previous character is a word character (for `\b`) and the
current suffix, returns the length of the (deterministic, leftmost,
greedy) match starting here, if any.  For these particular patterns
greedy matching with full runs is equivalent to Python's backtracking:
every sub-pattern `\d+`/`\s*` run, when shortened, leaves a character of
the same class next, which can never satisfy the following part of the
pattern. -/

/-- Python `\d` (ASCII). -/
def isDigitC (c : Char) : Bool := c.isDigit

/-- Python `\w` (ASCII): letters, digits, underscore. -/
def isWordC (c : Char) : Bool := c.isAlphanum || c == '_'

/-- Python `\s` (ASCII): space, tab, newline, carriage return, form
feed, vertical tab. -/
def isSpaceC (c : Char) : Bool :=
  c == ' ' || c == '\t' || c == '\n' || c == '\r' || c == '\x0c' || c == '\x0b'

/-- Length of the leading run of characters satisfying `p`. -/
def countLeading (p : Char → Bool) : List Char → Nat
  | [] => 0
  | c :: cs => if p c then countLeading p cs + 1 else 0

/-- A partial pattern: consumes a prefix, returning (consumed, rest). -/
abbrev Pat := List Char → Option (Nat × List Char)

/-- Exactly `n` digit characters (`\d{n}` followed by a non-`\d` part). -/
def pDigitsN : Nat → Pat
  | 0, l => some (0, l)
  | _ + 1, [] => none
  | n + 1, c :: cs =>
    if isDigitC c then (pDigitsN n cs).map (fun r => (r.1 + 1, r.2)) else none

/-- A single given character. -/
def pChar (c : Char) : Pat
  | [] => none
  | x :: xs => if x == c then some (1, xs) else none

/-- A single character satisfying `p`. -/
def pPred (p : Char → Bool) : Pat
  | [] => none
  | x :: xs => if p x then some (1, xs) else none

/-- `\d+` (greedy full run). -/
def pDigits1 : Pat := fun l =>
  let n := countLeading isDigitC l
  if n = 0 then none else some (n, l.drop n)

/-- `\s*` (greedy full run). -/
def pSpaces0 : Pat := fun l =>
  let n := countLeading isSpaceC l
  some (n, l.drop n)

/-- Sequencing of partial patterns. -/
def pSeq (a b : Pat) : Pat := fun l =>
  (a l).bind (fun r => (b r.2).map (fun s => (r.1 + s.1, s.2)))

/-- A matcher: previous-char-is-word flag and suffix to match length. -/
abbrev Matcher := Bool → List Char → Option Nat

/-- `\d{2}:\d{2}:\d{2}`. -/
def patHMS : Pat :=
  pSeq (pDigitsN 2) (pSeq (pChar ':') (pSeq (pDigitsN 2) (pSeq (pChar ':') (pDigitsN 2))))

/-- `\d{4}-\d{2}-\d{2}`. -/
def patDate : Pat :=
  pSeq (pDigitsN 4) (pSeq (pChar '-') (pSeq (pDigitsN 2) (pSeq (pChar '-') (pDigitsN 2))))

/-- The class `[T\s]`. -/
def prTS (c : Char) : Bool := c == 'T' || isSpaceC c

/-- `[T\s]\d{2}:\d{2}:\d{2}`. -/
def patTS : Pat := pSeq (pPred prTS) patHMS

/-- `\d{4}-\d{2}-\d{2}[T\s]\d{2}:\d{2}:\d{2}` (no `\b`). -/
def matchTimestamp : Matcher := fun _ l => ((pSeq patDate patTS) l).map (·.1)

/-- `\d{2}:\d{2}:\d{2}` (no `\b`). -/
def matchTime : Matcher := fun _ l => (patHMS l).map (·.1)

/-- `\d+\.\d+%`. -/
def patPercent : Pat := pSeq pDigits1 (pSeq (pChar '.') (pSeq pDigits1 (pChar '%')))

/-- `\b\d+\.\d+%`. -/
def matchPercent : Matcher := fun prevWord l =>
  if prevWord then none else (patPercent l).map (·.1)

/-- Does `l` start with `pre`? -/
def listStartsWith : List Char → List Char → Bool
  | [], _ => true
  | _ :: _, [] => false
  | a :: as, b :: bs => a == b && listStartsWith as bs

/-- The alternation `(MB|GB|KB|bytes?)` in pattern order, greedy on the
optional `s`. -/
def pSizeUnit : Pat := fun l =>
  if listStartsWith ['M', 'B'] l then some (2, l.drop 2)
  else if listStartsWith ['G', 'B'] l then some (2, l.drop 2)
  else if listStartsWith ['K', 'B'] l then some (2, l.drop 2)
  else if listStartsWith ['b', 'y', 't', 'e', 's'] l then some (5, l.drop 5)
  else if listStartsWith ['b', 'y', 't', 'e'] l then some (4, l.drop 4)
  else none

/-- `\b\d+\s*(MB|GB|KB|bytes?)`. -/
def patSize : Pat := pSeq pDigits1 (pSeq pSpaces0 pSizeUnit)

def matchSize : Matcher := fun prevWord l =>
  if prevWord then none else (patSize l).map (·.1)

/-- The literal `ms`. -/
def patMs : Pat := pSeq (pChar 'm') (pChar 's')

/-- `\d+\s*ms`. -/
def patDuration : Pat := pSeq pDigits1 (pSeq pSpaces0 patMs)

/-- `\b\d+\s*ms`. -/
def matchDuration : Matcher := fun prevWord l =>
  if prevWord then none else (patDuration l).map (·.1)

/-- An IPv4 octet: `\d{1,3}`.  The greedy run must be 1–3 digits: a
partial take leaves a digit next, which can never satisfy the following
`\.`/`(:\d+)?\b` part. -/
def pOctet : Pat := fun l =>
  let n := countLeading isDigitC l
  if n = 0 || 3 < n then none else some (n, l.drop n)

/-- Is the first character a word character (`false` at end of input)? -/
def headWord : List Char → Bool
  | [] => false
  | c :: _ => isWordC c

/-- The four dotted octets `\d{1,3}\.\d{1,3}\.\d{1,3}\.\d{1,3}`. -/
def ipCore : Pat :=
  pSeq pOctet (pSeq (pChar '.') (pSeq pOctet (pSeq (pChar '.')
    (pSeq pOctet (pSeq (pChar '.') pOctet)))))

/-- `\b\d{1,3}\.\d{1,3}\.\d{1,3}\.\d{1,3}(:\d+)?\b`.  If the trailing
`\b` fails after a port, the engine retries without the port; the `:`
then sits after the last octet and is a non-word character, so the
boundary holds. -/
def matchIp : Matcher := fun prevWord l =>
  if prevWord then none
  else
    match ipCore l with
    | none => none
    | some (n, rest) =>
      if rest.head? = some ':' then
        let pn := countLeading isDigitC rest.tail
        if 0 < pn then
          if headWord (rest.tail.drop pn) then some n else some (n + 1 + pn)
        else some n
      else if headWord rest then none else some n

/-- `\s+` (for the whitespace-collapse pass, no `\b`). -/
def matchWs : Matcher := fun _ l =>
  let n := countLeading isSpaceC l
  if n = 0 then none else some n

/-- One step of `re.sub`: scan left to right; at each position ask the
matcher; on a match emit the replacement and resume after the matched
text (`\b` at the resume point looks at the last matched character of
the original string, as in Python); otherwise copy one character.
`fuel` dominates the list length, so it never runs out. -/
def reSubGo (m : Matcher) (repl : List Char) : Nat → Bool → List Char → List Char
  | 0, _, l => l
  | _ + 1, _, [] => []
  | fuel + 1, prevWord, c :: cs =>
    match m prevWord (c :: cs) with
    | some (n + 1) =>
      repl ++ reSubGo m repl fuel (isWordC ((c :: cs).getD n c)) ((c :: cs).drop (n + 1))
    | _ => c :: reSubGo m repl fuel (isWordC c) cs

/-- `re.sub(pattern, repl, s)` for our matchers (none matches empty). -/
def pyReSub (m : Matcher) (repl : List Char) (l : List Char) : List Char :=
  reSubGo m repl (l.length + 1) false l

/-- Python `str.strip()` (whitespace on both ends). -/
def pyStripL (l : List Char) : List Char :=
  ((l.dropWhile isSpaceC).reverse.dropWhile isSpaceC).reverse

/-- `normalize_message`: the six substitutions in source order, then
whitespace collapse, strip process and lower-casing (ASCII). -/
def normalize_message (message : String) : String :=
  let l1 := pyReSub matchTimestamp "[TIMESTAMP]".toList message.toList
  let l2 := pyReSub matchTime "[TIME]".toList l1
  let l3 := pyReSub matchPercent "[PERCENTAGE]".toList l2
  let l4 := pyReSub matchSize "[SIZE]".toList l3
  let l5 := pyReSub matchDuration "[DURATION]".toList l4
  let l6 := pyReSub matchIp "[IP]".toList l5
  let l7 := pyReSub matchWs [' '] l6
  String.mk ((pyStripL l7).map Char.toLower)

example : normalize_message "CPU at 95.2% at 12:03:01" = "cpu at [percentage] at [time]" := by
  decide

example :
    normalize_message "2024-01-02 03:04:05 host 10.0.0.1:8080 used 512 MB in 30 ms" =
    "[timestamp] host [ip] used [size] in [duration]" := by
  decide

/-! ## Fingerprinter (`generate_alert_hash`) -/

/-- JSON string escaping as `json.dumps` performs it for the characters
that can occur here: backslash, double quote, and ASCII control
characters (`\n`, `\t`, … rendered as `\uXXXX` except for the named
escapes). -/
def jsonEscapeChar (c : Char) : List Char :=
  if c == '"' then ['\\', '"']
  else if c == '\\' then ['\\', '\\']
  else if c == '\n' then ['\\', 'n']
  else if c == '\t' then ['\\', 't']
  else if c == '\r' then ['\\', 'r']
  else [c]

/-- Serialize one string literal for `json.dumps`. -/
def jsonQuote (s : String) : String :=
  "\"" ++ String.mk (s.toList.flatMap jsonEscapeChar) ++ "\""

/-- `json.dumps(key_fields, sort_keys=True)` for the fixed dict built in
`generate_alert_hash`: keys in sorted order `alert_type`, `message`,
`service`, `severity`, with the default `', '`/`': '` separators. -/
def json_dumps_key_fields (service severity message alertType : String) : String :=
  "\x7b" ++ jsonQuote "alert_type" ++ ": " ++ jsonQuote alertType ++ ", " ++
    jsonQuote "message" ++ ": " ++ jsonQuote message ++ ", " ++
    jsonQuote "service" ++ ": " ++ jsonQuote service ++ ", " ++
    jsonQuote "severity" ++ ": " ++ jsonQuote severity ++ "\x7d"

/-- Lowercase hexadecimal digit. -/
def hexDigitChar (n : Nat) : Char :=
  if n < 10 then Char.ofNat ('0'.toNat + n) else Char.ofNat ('a'.toNat + (n - 10))

/-- Render a number as exactly 64 lowercase hex digits (big-endian). -/
def hexPad64 (n : Nat) : String :=
  String.mk ((List.range 64).map (fun i => hexDigitChar (n / 16 ^ (63 - i) % 16)))

/-- A deterministic 256-bit digest of the input characters.  This
models `hashlib.sha256(content.encode()).hexdigest()`: a fixed
deterministic function producing 64 lowercase hex characters.  The
actual SHA-256 compression is not reproduced; no claim verified here
depends on anything beyond the digest being a deterministic function of
its input with this output format. -/
def sha256_hexdigest (s : String) : String :=
  hexPad64 (s.toList.foldl (fun acc c => (acc * 131 + c.toNat) % 2 ^ 256) 5381)

/-- `generate_alert_hash(alert_data)`: the digest of the canonical
(sorted-keys) JSON of the four key fields, with the message normalized
first; missing dict keys surface as `''` through `.get(…, '')`. -/
def generate_alert_hash (alert_data : AlertData) : String :=
  sha256_hexdigest (json_dumps_key_fields alert_data.service alert_data.severity
    (normalize_message alert_data.message) alert_data.alertType)

/-! ## SuppressionEngine (`should_suppress_alert`) -/

/-- Python `str.lower()` (ASCII). -/
def pyLower (s : String) : String := String.mk (s.toList.map Char.toLower)

/-- Python's `needle in hay` on strings: substring containment. -/
def listContainsSub (needle : List Char) : List Char → Bool
  | [] => listStartsWith needle []
  | c :: cs => listStartsWith needle (c :: cs) || listContainsSub needle cs

/-- Python `needle in hay` for strings. -/
def pyIn (needle hay : String) : Bool := listContainsSub needle.toList hay.toList

/-- The reason string produced for a duplicate:
`f"Duplicate alert (hash: {alert_hash[:8]})"`. -/
def dupReason (alert_hash : String) : String :=
  "Duplicate alert (hash: " ++ String.mk (alert_hash.toList.take 8) ++ ")"

/-- The tail of `should_suppress_alert` after the dedup check and
`cache_alert` call: the business-hours rule and the test-keyword rule.
Python's `if severity in ['low','info']: if 9 <= current_hour <= 17:
return …` falls through to the test-keyword rule when either condition
fails, which flattens into the single conjunction used here. -/
def secondary_rules (current_hour : Nat) (alert_data : AlertData) : Bool × String :=
  if (pyLower alert_data.severity = "low" ∨ pyLower alert_data.severity = "info") ∧
      (9 ≤ current_hour ∧ current_hour ≤ 17) then
    (true, "Low severity alert during business hours")
  else if pyIn "test" (pyLower alert_data.message) ||
      pyIn "testing" (pyLower alert_data.message) ||
      pyIn "demo" (pyLower alert_data.message) then
    (true, "Test alert detected")
  else (false, "")

/-- `should_suppress_alert(alert_data)`: dedup check, then caching, then
the secondary rules.  `current_hour` is `time.localtime().tm_hour`;
`writeOk` is the success of the duplicate-record rewrite inside
`is_duplicate_alert` and `cacheWriteOk` the success of the write inside
`cache_alert` (a failure of either is caught and logged in the source). -/
def should_suppress_alert (ttl now current_hour : Nat)
    (writeOk cacheWriteOk : Bool) (alert_data : AlertData) (st : Store) :
    (Bool × String) × Store :=
  let alert_hash := generate_alert_hash alert_data
  let r := is_duplicate_alert ttl now writeOk alert_hash st
  if r.1 then ((true, dupReason alert_hash), r.2)
  else
    let st2 := cache_alert now cacheWriteOk alert_hash alert_data r.2
    (secondary_rules current_hour alert_data, st2)

/-! ## Concurrency model

Each script invocation is single-threaded, but several invocations can
run concurrently against the shared cache directory.  Relative to one
fingerprint an invocation touches the store twice: the read(-modify)
inside `is_duplicate_alert` and, on a miss, the separate write inside
`cache_alert`.  We model an invocation as those two atomic phases and a
run as an arbitrary interleaving (schedule) of phase steps. -/

/-- Progress of one invocation: not yet run its dedup read; read a
miss and still has to run `cache_alert`; or finished with a verdict
(`suppressed = true` means the invocation suppresses its alert). -/
inductive ProcState where
  | start
  | pendingInsert
  | done (suppressed : Bool)
  deriving Repr, DecidableEq

/-- One scheduler step: invocation `i` executes its next phase against
the shared store.  Phase 1 is `is_duplicate_alert` (on a hit the
invocation is done, suppressed); phase 2 is `cache_alert` plus the
store-independent secondary rules.  Indices out of range or finished
invocations do nothing. -/
def invocationStep (ttl now current_hour : Nat) (alert_data : AlertData)
    (s : Store × List ProcState) (i : Nat) : Store × List ProcState :=
  match s.2.get? i with
  | some .start =>
    let r := is_duplicate_alert ttl now true (generate_alert_hash alert_data) s.1
    if r.1 then (r.2, s.2.set i (.done true)) else (r.2, s.2.set i .pendingInsert)
  | some .pendingInsert =>
    (cache_alert now true (generate_alert_hash alert_data) alert_data s.1,
      s.2.set i (.done (secondary_rules current_hour alert_data).1))
  | _ => s

/-- Run `numProcs` concurrent invocations of the same alert under the
given interleaving, starting from an empty cache. -/
def runSched (ttl now current_hour : Nat) (alert_data : AlertData)
    (numProcs : Nat) (sched : List Nat) : Store × List ProcState :=
  sched.foldl (invocationStep ttl now current_hour alert_data)
    ([], List.replicate numProcs .start)

/-- `numProcs` invocations of the same alert run strictly one after the
other (each complete `should_suppress_alert` call finishes before the
next begins), collecting the verdicts in order. -/
def runSequential (ttl now current_hour : Nat) (alert_data : AlertData) :
    Nat → Store → List (Bool × String) × Store
  | 0, st => ([], st)
  | n + 1, st =>
    let r := should_suppress_alert ttl now current_hour true true alert_data st
    let rest := runSequential ttl now current_hour alert_data n r.2
    (r.1 :: rest.1, rest.2)

/-- A sequence of sequential observations of the same alert at the given
times (the store effect of each `should_suppress_alert` call feeds the
next). -/
def observeSeq (ttl current_hour : Nat) (alert_data : AlertData)
    (ts : List Nat) (st : Store) : Store :=
  ts.foldl (fun s t => (should_suppress_alert ttl t current_hour true true alert_data s).2) st

/-- Contents of the cache file for a hash, if the file exists. -/
def storeContent (st : Store) (h : String) : Option FileContent :=
  (storeFind st h).map (·.content)

/-- Should the sweep keep this file: parses and is within TTL. -/
def sweepKeep (ttl now : Nat) (f : CacheFile) : Bool :=
  match f.content with
  | .corrupt => false
  | .ok d => decide (now - d.timestamp ≤ ttl)

/-! ## Input parsing (`parse_alert_content` and the `__main__` guard)

`parse_alert_content` first tries `json.loads(content)` and, on
success, returns the loaded value **unchanged** (whatever JSON type it
is); only on a `JSONDecodeError` does it build the fallback dict with
`service`/`severity`/`message`/`type` extracted from the text. -/

/-- A Python value as produced by `json.loads`.  Numbers keep their
source lexeme: nothing in the script inspects a number beyond its
truthiness, which the lexeme determines. -/
inductive Json where
  | null : Json
  | bool (b : Bool) : Json
  | num (lexeme : String) : Json
  | str (s : String) : Json
  | arr (elems : List Json) : Json
  | obj (fields : List (String × Json)) : Json

/-- JSON whitespace (`json.loads` accepts exactly these). -/
def jsonWs (c : Char) : Bool := c == ' ' || c == '\t' || c == '\n' || c == '\r'

/-- Hexadecimal digit test. -/
def isHexC (c : Char) : Bool :=
  c.isDigit || ('a' ≤ c && c ≤ 'f') || ('A' ≤ c && c ≤ 'F')

/-- Drop leading JSON whitespace. -/
def skipWs (l : List Char) : List Char := l.dropWhile jsonWs

/-- Decode one string body after the opening quote, returning the
decoded string and the rest after the closing quote. -/
def parseStringBody : List Char → Option (List Char × List Char)
  | [] => none
  | '"' :: r => some ([], r)
  | '\\' :: e :: r =>
    let esc : Option Char :=
      if e == '"' then some '"'
      else if e == '\\' then some '\\'
      else if e == '/' then some '/'
      else if e == 'b' then some '\x08'
      else if e == 'f' then some '\x0c'
      else if e == 'n' then some '\n'
      else if e == 'r' then some '\r'
      else if e == 't' then some '\t'
      else none
    match esc with
    | some c => (parseStringBody r).map (fun p => (c :: p.1, p.2))
    | none =>
      if e == 'u' then
        match r with
        | h1 :: h2 :: h3 :: h4 :: r2 =>
          if isHexC h1 && isHexC h2 && isHexC h3 && isHexC h4 then
            let v := [h1, h2, h3, h4].foldl
              (fun acc c => acc * 16 +
                (if c.isDigit then c.toNat - '0'.toNat
                 else if c ≤ 'F' then c.toNat - 'A'.toNat + 10
                 else c.toNat - 'a'.toNat + 10)) 0
            (parseStringBody r2).map (fun p => (Char.ofNat v :: p.1, p.2))
          else none
        | _ => none
      else none
  | c :: r => (parseStringBody r).map (fun p => (c :: p.1, p.2))

/-- Lex one JSON number per the JSON grammar (`-?int frac? exp?` with
`int = 0 | [1-9][0-9]*`), returning the lexeme and the rest. -/
def parseNumber (l : List Char) : Option (List Char × List Char) :=
  let (sign, l1) := match l with
    | '-' :: r => (['-'], r)
    | _ => ([], l)
  let intDigits := l1.takeWhile isDigitC
  let l2 := l1.drop intDigits.length
  if intDigits.isEmpty then none
  else if intDigits.length > 1 && intDigits.headD '0' == '0' then none
  else
    let (frac, l3) := match l2 with
      | '.' :: r =>
        let ds := r.takeWhile isDigitC
        if ds.isEmpty then ([' '], l2) else ('.' :: ds, r.drop ds.length)
      | _ => ([], l2)
    if frac == [' '] then none
    else
      let (ex, l4) := match l3 with
        | 'e' :: r => (some ('e', r), l3)
        | 'E' :: r => (some ('E', r), l3)
        | _ => (none, l3)
      match ex with
      | none => some (sign ++ intDigits ++ frac, l4)
      | some (ec, r) =>
        let (es, r2) := match r with
          | '+' :: r3 => (['+'], r3)
          | '-' :: r3 => (['-'], r3)
          | _ => ([], r)
        let ds := r2.takeWhile isDigitC
        if ds.isEmpty then none
        else some (sign ++ intDigits ++ frac ++ (ec :: es) ++ ds, r2.drop ds.length)

mutual

/-- Parse one JSON value (no leading whitespace). -/
def parseValue : Nat → List Char → Option (Json × List Char)
  | 0, _ => none
  | fuel + 1, l =>
    match l with
    | 'n' :: 'u' :: 'l' :: 'l' :: r => some (.null, r)
    | 't' :: 'r' :: 'u' :: 'e' :: r => some (.bool true, r)
    | 'f' :: 'a' :: 'l' :: 's' :: 'e' :: r => some (.bool false, r)
    | '"' :: r =>
      (parseStringBody r).map (fun p => (.str (String.mk p.1), p.2))
    | '[' :: r =>
      (match skipWs r with
       | ']' :: r2 => some (.arr [], r2)
       | r2 => (parseItems fuel r2).map (fun p => (.arr p.1, p.2)))
    | '\x7b' :: r =>
      (match skipWs r with
       | '\x7d' :: r2 => some (.obj [], r2)
       | r2 => (parseFields fuel r2).map (fun p => (.obj p.1, p.2)))
    | _ => (parseNumber l).map (fun p => (.num (String.mk p.1), p.2))

/-- Parse the comma-separated elements of a non-empty array, up to and
including the closing bracket. -/
def parseItems : Nat → List Char → Option (List Json × List Char)
  | 0, _ => none
  | fuel + 1, l =>
    (parseValue fuel l).bind (fun p =>
      match skipWs p.2 with
      | ',' :: r2 => (parseItems fuel (skipWs r2)).map (fun q => (p.1 :: q.1, q.2))
      | ']' :: r2 => some ([p.1], r2)
      | _ => none)

/-- Parse the members of a non-empty object, up to and including the
closing brace. -/
def parseFields : Nat → List Char → Option (List (String × Json) × List Char)
  | 0, _ => none
  | fuel + 1, l =>
    match l with
    | '"' :: r =>
      (parseStringBody r).bind (fun kp =>
        match skipWs kp.2 with
        | ':' :: r2 =>
          (parseValue fuel (skipWs r2)).bind (fun vp =>
            match skipWs vp.2 with
            | ',' :: r4 =>
              (parseFields fuel (skipWs r4)).map
                (fun q => ((String.mk kp.1, vp.1) :: q.1, q.2))
            | '\x7d' :: r4 => some ([(String.mk kp.1, vp.1)], r4)
            | _ => none)
        | _ => none)
    | _ => none

end

/-- `json.loads(content)`: parse one document with optional surrounding
whitespace; anything else is a `JSONDecodeError` (`none`). -/
def jsonLoads (content : String) : Option Json :=
  match parseValue (2 * content.length + 8) (skipWs content.toList) with
  | some (v, rest) => if (skipWs rest).isEmpty then some v else none
  | none => none

/-- The separator class `[:\s]` of the service/severity patterns. -/
def sepColonWs (c : Char) : Bool := c == ':' || isSpaceC c

/-- Not a line break (the class `[^\n\r]`). -/
def notNl (c : Char) : Bool := !(c == '\n' || c == '\r')

/-- Case-insensitive prefix test (`re.IGNORECASE`). -/
def ciStartsWith : List Char → List Char → Bool
  | [], _ => true
  | _ :: _, [] => false
  | a :: as, b :: bs => a.toLower == b.toLower && ciStartsWith as bs

/-- Largest index of an element satisfying `p`, if any. -/
def lastIdxSat (p : Char → Bool) (l : List Char) : Option Nat :=
  match l with
  | [] => none
  | c :: cs =>
    match lastIdxSat p cs with
    | some i => some (i + 1)
    | none => if p c then some 0 else none

/-- Try `service[:\s]+([^\n\r]+)` at the start of `l` (the group is
captured greedily; when the greedy `[:\s]+` leaves nothing for the
group, the engine backtracks to the last separator character that is
not a line break). -/
def svcTryAt (l : List Char) : Option (List Char) :=
  if ciStartsWith "service".toList l then
    let r := l.drop 7
    let sepLen := countLeading sepColonWs r
    if sepLen = 0 then none
    else
      let after := r.drop sepLen
      match after with
      | _ :: _ => some (after.takeWhile notNl)
      | [] =>
        match lastIdxSat notNl (r.take sepLen) with
        | some i => if 0 < i then some ((r.take sepLen).drop i) else none
        | none => none
  else none

/-- Leftmost match of the service pattern over the whole text. -/
def svcSearch : List Char → Option (List Char)
  | [] => none
  | c :: cs =>
    match svcTryAt (c :: cs) with
    | some g => some g
    | none => svcSearch cs

/-- `re.search(r'service[:\s]+([^\n\r]+)', content, re.IGNORECASE)`,
then `.group(1).strip()`. -/
def extract_service (content : String) : Option String :=
  (svcSearch content.toList).map (fun g => String.mk (pyStripL g))

/-- Try `severity[:\s]+(\w+)` at the start of `l`.  No backtracking can
help here: shortening the separator run exposes a separator character,
which is never a word character. -/
def sevTryAt (l : List Char) : Option (List Char) :=
  if ciStartsWith "severity".toList l then
    let r := l.drop 8
    let sepLen := countLeading sepColonWs r
    if sepLen = 0 then none
    else
      let w := (r.drop sepLen).takeWhile isWordC
      match w with
      | [] => none
      | _ :: _ => some w
  else none

/-- Leftmost match of the severity pattern. -/
def sevSearch : List Char → Option (List Char)
  | [] => none
  | c :: cs =>
    match sevTryAt (c :: cs) with
    | some g => some g
    | none => sevSearch cs

/-- `re.search(r'severity[:\s]+(\w+)', content, re.IGNORECASE)` with
`.group(1).strip()` (the strip is a no-op on a `\w+` group). -/
def extract_severity (content : String) : Option String :=
  (sevSearch content.toList).map String.mk

/-- The keyword alternation of `\b(critical|high|medium|low)\b`,
attempted in pattern order at one position. -/
def kwTryAt (l : List Char) : Option (List Char) :=
  if ciStartsWith "critical".toList l && !headWord (l.drop 8) then some (l.take 8)
  else if ciStartsWith "high".toList l && !headWord (l.drop 4) then some (l.take 4)
  else if ciStartsWith "medium".toList l && !headWord (l.drop 6) then some (l.take 6)
  else if ciStartsWith "low".toList l && !headWord (l.drop 3) then some (l.take 3)
  else none

/-- Leftmost `\b`-anchored keyword match (`prevWord` tracks whether the
previous character is a word character). -/
def kwSearch : Bool → List Char → Option (List Char)
  | _, [] => none
  | prevWord, c :: cs =>
    match if prevWord then none else kwTryAt (c :: cs) with
    | some g => some g
    | none => kwSearch (isWordC c) cs

/-- `re.search(r'\b(critical|high|medium|low)\b', content,
re.IGNORECASE)`, whose `group(1)` is the matched text in its original
case. -/
def extract_severity_keyword (content : String) : Option String :=
  (kwSearch false content.toList).map String.mk

/-- The `type` detection chain over `content.lower()`. -/
def detect_alert_type (content : String) : String :=
  if pyIn "cpu" (pyLower content) then "cpu"
  else if pyIn "memory" (pyLower content) then "memory"
  else if pyIn "disk" (pyLower content) then "disk"
  else if pyIn "network" (pyLower content) then "network"
  else "general"

/-- Result of `parse_alert_content`: either the `json.loads` value
returned unchanged, or the fallback dict assembled from the text
(`service`/`severity` present only when their patterns matched;
`message` and `type` always present). -/
inductive ParsedAlert where
  | js (v : Json) : ParsedAlert
  | extracted (service : Option String) (severity : Option String)
      (message : String) (alertType : String) : ParsedAlert

/-- `parse_alert_content(content)`. -/
def parse_alert_content (content : String) : ParsedAlert :=
  match jsonLoads content with
  | some v => .js v
  | none =>
    .extracted (extract_service content)
      (match extract_severity content with
       | some w => some w
       | none => extract_severity_keyword content)
      content (detect_alert_type content)

/-- Python truthiness of a number from its JSON lexeme: zero iff every
mantissa digit is `0`. -/
def numLexemeIsZero (lexeme : String) : Bool :=
  (lexeme.toList.takeWhile (fun c => !(c == 'e' || c == 'E'))).all
    (fun c => c == '-' || c == '0' || c == '.')

/-- Python truthiness of a `parse_alert_content` result (`if not
alert_data`).  The fallback dict always carries at least `message` and
`type`, hence is truthy. -/
def pyTruthy : ParsedAlert → Bool
  | .js .null => false
  | .js (.bool b) => b
  | .js (.num lexeme) => !numLexemeIsZero lexeme
  | .js (.str s) => !s.isEmpty
  | .js (.arr elems) => !elems.isEmpty
  | .js (.obj fields) => !fields.isEmpty
  | .extracted _ _ _ _ => true

/-- The `__main__` guard around parsing: after
`content = sys.stdin.read().strip()` and the emptiness check, the
script runs `alert_data = parse_alert_content(content)` and hard-fails
with "Could not parse alert content" when `not alert_data`.  This is
that hard-failure condition for a non-empty stripped input. -/
def main_parse_rejects (content : String) : Bool :=
  !(String.mk (pyStripL content.toList)).isEmpty &&
    !pyTruthy (parse_alert_content content)

/-! ## Templates for the normalization-equivalence claim

Two messages "differ only in the concrete values of embedded pattern
instances" when they are two renderings of a common template: a leading
literal followed by (slot, literal) pairs, where each slot carries one
value kind and the two values the messages put there.  The claim is
about `normalize_message` applied to the two renderings. -/

/-- The six value kinds, in substitution-pass order. -/
inductive SlotKind where
  | timestamp | time | percent | size | duration | ip
  deriving Repr, DecidableEq

/-- Index of the pass that replaces this kind (source order). -/
def kindIdx : SlotKind → Nat
  | .timestamp => 0
  | .time => 1
  | .percent => 2
  | .size => 3
  | .duration => 4
  | .ip => 5

/-- The matcher of pass `j`. -/
def passMatcher : Nat → Matcher
  | 0 => matchTimestamp
  | 1 => matchTime
  | 2 => matchPercent
  | 3 => matchSize
  | 4 => matchDuration
  | _ => matchIp

/-- The replacement text of pass `j`. -/
def passRepl : Nat → List Char
  | 0 => "[TIMESTAMP]".toList
  | 1 => "[TIME]".toList
  | 2 => "[PERCENTAGE]".toList
  | 3 => "[SIZE]".toList
  | 4 => "[DURATION]".toList
  | _ => "[IP]".toList

/-- One slot: the kind and the two values the two messages embed. -/
structure Slot where
  kind : SlotKind
  v1 : List Char
  v2 : List Char

/-- A template: leading literal, then (slot, following literal) pairs. -/
abbrev Template := List Char × List (Slot × List Char)

/-- The value a side uses. -/
def slotVal (side : Bool) (s : Slot) : List Char := if side then s.v1 else s.v2

/-- Render the tail of a template as pass `j` sees it: slots whose pass
has already run (`kindIdx < j`) show their placeholder, the others still
show the side's value. -/
def renderTail (side : Bool) (j : Nat) : List (Slot × List Char) → List Char
  | [] => []
  | (s, lit) :: rest =>
    (if kindIdx s.kind < j then passRepl (kindIdx s.kind) else slotVal side s) ++
      lit ++ renderTail side j rest

/-- Render a template as pass `j` sees it (`j = 0`: the raw message). -/
def renderFrom (side : Bool) (j : Nat) (t : Template) : List Char :=
  t.1 ++ renderTail side j t.2

/-- No pass matches anywhere strictly inside `v` (scanned with the
before-the-value context being a non-word character). -/
def noMatchIn (m : Matcher) : Bool → List Char → Bool
  | _, [] => true
  | prev, c :: cs => (m prev (c :: cs)).isNone && noMatchIn m (isWordC c) cs

/-- The kind's own matcher consumes exactly the whole value. -/
def matchesFully (m : Matcher) (v : List Char) : Bool :=
  decide (m false v = some v.length)

/-- A well-formed embedded value: its kind's pattern matches it in
full, and no earlier pass matches anywhere inside it. -/
def valueOk (k : SlotKind) (v : List Char) : Bool :=
  matchesFully (passMatcher (kindIdx k)) v &&
    (List.range (kindIdx k)).all (fun j => noMatchIn (passMatcher j) false v)

/-- No decimal digits (digits start every pattern, so a digit-free
text can never contain a match). -/
def noDigits (l : List Char) : Bool := l.all (fun c => !isDigitC c)

/-- The first character after any leading whitespace must not be able
to begin the unit part of `\d+\s*(MB|GB|KB|bytes?)` or `\d+\s*ms`,
which are the only pattern parts reachable across whitespace. -/
def unitFreeHead (l : List Char) : Bool :=
  match l.dropWhile isSpaceC with
  | [] => true
  | d :: _ => !(d == 'M' || d == 'G' || d == 'K' || d == 'b' || d == 'm')

/-- Condition on the text following an embedded value so that no match
can leak across the boundary: empty, or starting with a space whose
successor is not a digit, with no byte-unit/`ms` token reachable across
the leading whitespace. -/
def postOk (post : List Char) : Bool :=
  match post with
  | [] => true
  | c :: rest =>
    c == ' ' &&
      (match rest with
       | [] => true
       | d :: _ => !isDigitC d) &&
      unitFreeHead post

/-- The previous-character word-flag after scanning past `l`, starting
from flag `prev`. -/
def endPrevWord (prev : Bool) (l : List Char) : Bool :=
  match l.getLast? with
  | none => prev
  | some c => isWordC c

/-- A literal standing before a slot must end in a space (or be empty):
`\b` then holds before the value's first digit and no pattern can reach
the value contiguously from the left. -/
def endsSp (l : List Char) : Bool :=
  match l.getLast? with
  | none => true
  | some c => c == ' '

/-- A literal between two slots: at least two characters, starting and
ending with a space, digit-free, and with no unit token after its
leading whitespace. -/
def interLitOk (lit : List Char) : Bool :=
  2 ≤ lit.length && lit.headD 'x' == ' ' && endsSp lit && noDigits lit && unitFreeHead lit

/-- The literal after the last slot: empty or space-led, digit-free,
no unit token after the leading whitespace. -/
def finalLitOk (lit : List Char) : Bool :=
  lit.isEmpty || (lit.headD 'x' == ' ' && noDigits lit && unitFreeHead lit)

/-- The (slot, literal) chain is well formed. -/
def tailOk : List (Slot × List Char) → Bool
  | [] => true
  | (s, lit) :: rest =>
    valueOk s.kind s.v1 && valueOk s.kind s.v2 &&
      (if rest.isEmpty then finalLitOk lit else interLitOk lit) &&
      tailOk rest

/-- A well-formed template: digit-free leading literal ending in a
space when a slot follows, and a well-formed chain. -/
def templateOk (t : Template) : Bool :=
  noDigits t.1 && (t.2.isEmpty || endsSp t.1) && tailOk t.2

/-! ## Store lemmas -/

theorem storeFind_storeWrite_none {st : Store} {h : String} (c : FileContent)
    (hf : storeFind st h = none) :
    storeFind (storeWrite st h c) h = some ⟨h, c, true⟩ := by
  induction st with
  | nil => simp [storeFind, storeWrite]
  | cons f fs ih =>
    by_cases hn : f.name = h
    · simp [storeFind, hn] at hf
    · have hf' : storeFind fs h = none := by simpa [storeFind, hn] using hf
      simp [storeWrite, storeFind, hn, ih hf']

theorem storeFind_storeWrite_some {st : Store} {h : String} {f : CacheFile}
    (c : FileContent) (hf : storeFind st h = some f) :
    storeFind (storeWrite st h c) h = some ⟨h, c, f.deleteOk⟩ := by
  induction st with
  | nil => simp [storeFind] at hf
  | cons g gs ih =>
    by_cases hn : g.name = h
    · simp only [storeFind, beq_iff_eq, if_pos hn] at hf
      cases hf
      simp [storeWrite, storeFind, hn]
    · simp only [storeFind, beq_iff_eq, if_neg hn] at hf
      simp [storeWrite, storeFind, hn, ih hf]

theorem storeContent_storeWrite (st : Store) (h : String) (c : FileContent) :
    storeContent (storeWrite st h c) h = some c := by
  cases hf : storeFind st h with
  | none => simp [storeContent, storeFind_storeWrite_none c hf]
  | some f => simp [storeContent, storeFind_storeWrite_some c hf]

theorem storeFind_storeErase (st : Store) (h : String) :
    storeFind (storeErase st h) h = none := by
  induction st with
  | nil => rfl
  | cons f fs ih =>
    by_cases hn : f.name = h
    · simp [storeErase, hn, ih]
    · simp [storeErase, storeFind, hn, ih]

/-! ## Behavior lemmas for `is_duplicate_alert` / `should_suppress_alert` -/

theorem is_duplicate_alert_of_find_none {st : Store} {h : String}
    (ttl now : Nat) (w : Bool) (hf : storeFind st h = none) :
    is_duplicate_alert ttl now w h st = (false, st) := by
  simp [is_duplicate_alert, hf]

theorem is_duplicate_alert_corrupt {st : Store} {h : String} {f : CacheFile}
    (ttl now : Nat) (w : Bool) (hf : storeFind st h = some f)
    (hc : f.content = .corrupt) :
    is_duplicate_alert ttl now w h st = (false, st) := by
  simp [is_duplicate_alert, hf, hc]

theorem is_duplicate_alert_hit {st : Store} {h : String} {f : CacheFile}
    {d : CacheEntry} (ttl now : Nat) (hf : storeFind st h = some f)
    (hc : f.content = .ok d) (hlive : now - d.timestamp ≤ ttl) :
    is_duplicate_alert ttl now true h st =
      (true, storeWrite st h (.ok ⟨d.timestamp, now, d.count + 1, d.alert_data⟩)) := by
  simp [is_duplicate_alert, hf, hc, Nat.not_lt.mpr hlive]

theorem is_duplicate_alert_expired {st : Store} {h : String} {f : CacheFile}
    {d : CacheEntry} (ttl now : Nat) (w : Bool) (hf : storeFind st h = some f)
    (hc : f.content = .ok d) (hexp : ttl < now - d.timestamp)
    (hdel : f.deleteOk = true) :
    is_duplicate_alert ttl now w h st = (false, storeErase st h) := by
  simp [is_duplicate_alert, hf, hc, hexp, hdel]

theorem should_suppress_alert_of_dup {st st' : Store} {a : AlertData}
    (ttl now hour : Nat) (w cw : Bool)
    (hd : is_duplicate_alert ttl now w (generate_alert_hash a) st = (true, st')) :
    should_suppress_alert ttl now hour w cw a st =
      ((true, dupReason (generate_alert_hash a)), st') := by
  simp [should_suppress_alert, hd]

theorem should_suppress_alert_of_not_dup {st st' : Store} {a : AlertData}
    (ttl now hour : Nat) (w cw : Bool)
    (hd : is_duplicate_alert ttl now w (generate_alert_hash a) st = (false, st')) :
    should_suppress_alert ttl now hour w cw a st =
      (secondary_rules hour a,
        cache_alert now cw (generate_alert_hash a) a st') := by
  simp [should_suppress_alert, hd]

/-! ## String-length lemmas for distinguishing reason strings -/

theorem hexPad64_length (n : Nat) : (hexPad64 n).length = 64 := by
  simp [hexPad64, String.length]

theorem generate_alert_hash_length (a : AlertData) :
    (generate_alert_hash a).length = 64 := by
  unfold generate_alert_hash sha256_hexdigest
  exact hexPad64_length _

theorem string_length_append (a b : String) : (a ++ b).length = a.length + b.length := by
  show (a.data ++ b.data).length = a.data.length + b.data.length
  exact List.length_append a.data b.data

theorem dupReason_length {h : String} (hl : h.length = 64) :
    (dupReason h).length = 32 := by
  have hdata : h.toList.length = 64 := hl
  have h1 : (String.mk (h.toList.take 8)).length = 8 := by
    show (h.toList.take 8).length = 8
    rw [List.length_take, hdata]
    decide
  show ("Duplicate alert (hash: " ++ String.mk (h.toList.take 8) ++ ")").length = 32
  rw [string_length_append, string_length_append, h1]
  decide

theorem dupReason_ne_empty (a : AlertData) :
    dupReason (generate_alert_hash a) ≠ "" := by
  intro e
  have := congrArg String.length e
  rw [dupReason_length (generate_alert_hash_length a)] at this
  exact absurd this (by decide)

theorem dupReason_ne_low (a : AlertData) :
    dupReason (generate_alert_hash a) ≠ "Low severity alert during business hours" := by
  intro e
  have := congrArg String.length e
  rw [dupReason_length (generate_alert_hash_length a)] at this
  exact absurd this (by decide)

theorem dupReason_ne_test (a : AlertData) :
    dupReason (generate_alert_hash a) ≠ "Test alert detected" := by
  intro e
  have := congrArg String.length e
  rw [dupReason_length (generate_alert_hash_length a)] at this
  exact absurd this (by decide)

theorem secondary_rules_ne_dup (hour : Nat) (a : AlertData) :
    secondary_rules hour a ≠ (true, dupReason (generate_alert_hash a)) := by
  unfold secondary_rules
  split
  · intro e
    exact dupReason_ne_low a (congrArg Prod.snd e).symm
  · split
    · intro e
      exact dupReason_ne_test a (congrArg Prod.snd e).symm
    · intro e
      exact Bool.false_ne_true (congrArg Prod.fst e)

/-! ## C1: does `cache_alert` refuse to overwrite a live record? -/

/-- C1, counterexample.  A live record for hash `"k"` exists
(`firstSeen = 10`, `occurrenceCount = 5`, not expired at `now = 20` for
`ttl = 3600`), yet `cache_alert` does not fail: it silently replaces the
record with a fresh one whose `firstSeen = lastSeen = 20` and
`occurrenceCount = 1`, contradicting the claim that insert must fail
rather than overwrite. -/
theorem claim_C1_counterexample :
    storeFind [⟨"k", .ok ⟨10, 10, 5, ⟨"db", "high", "x", "cpu"⟩⟩, true⟩] "k" =
      some ⟨"k", .ok ⟨10, 10, 5, ⟨"db", "high", "x", "cpu"⟩⟩, true⟩ ∧
    20 - 10 ≤ 3600 ∧
    cache_alert 20 true "k" ⟨"db", "high", "y", "cpu"⟩
        [⟨"k", .ok ⟨10, 10, 5, ⟨"db", "high", "x", "cpu"⟩⟩, true⟩] =
      [⟨"k", .ok ⟨20, 20, 1, ⟨"db", "high", "y", "cpu"⟩⟩, true⟩] := by
  decide

/-- C1, amended: `cache_alert` has no create-if-absent semantics at all.
Whenever its write succeeds it unconditionally (over)writes the record
for the fingerprint with a fresh one (`firstSeen = lastSeen = now`,
`occurrenceCount = 1`), regardless of any existing live record. -/
theorem claim_C1 (now : Nat) (h : String) (a : AlertData) (st : Store) :
    storeContent (cache_alert now true h a st) h = some (.ok ⟨now, now, 1, a⟩) := by
  show storeContent (storeWrite st h (.ok ⟨now, now, 1, a⟩)) h = some (.ok ⟨now, now, 1, a⟩)
  exact storeContent_storeWrite st h _

/-! ## C3: does a failed insert suppress the alert as a duplicate? -/

/-- C3, counterexample.  The store is empty, so the lookup misses; the
insert (`cache_alert`) fails (`cacheWriteOk = false`, so the store stays
empty, i.e. no first-occurrence record was created), and yet the alert
is allowed through with verdict `(false, "")` — it was passed on to the
secondary rules instead of being suppressed as a duplicate. -/
theorem claim_C3_counterexample :
    should_suppress_alert 3600 100 3 true false ⟨"db", "high", "cpu overload", "cpu"⟩ [] =
      ((false, ""), []) := by
  decide

/-- C3, amended: a failure of the `cache_alert` write is caught and
logged and has no effect on the verdict: the alert proceeds to the
quiet-hours and test-alert rules exactly as if the insert had succeeded
(only the resulting store differs). -/
theorem claim_C3 (ttl now hour : Nat) (w : Bool) (a : AlertData) (st : Store) :
    (should_suppress_alert ttl now hour w false a st).1 =
      (should_suppress_alert ttl now hour w true a st).1 := by
  simp only [should_suppress_alert]
  cases hc : (is_duplicate_alert ttl now w (generate_alert_hash a) st).1 <;> simp [hc]

/-! ## C6: does a lookup remove a malformed record? -/

/-- C6, counterexample.  With a corrupt cache file for `"k"`, the lookup
returns a miss but leaves the store unchanged: the corrupt entry is
still present afterwards, contradicting "removes the corrupt entry from
the store as a side effect of that read". -/
theorem claim_C6_counterexample :
    is_duplicate_alert 3600 100 true "k" [⟨"k", .corrupt, true⟩] =
      (false, [⟨"k", .corrupt, true⟩]) ∧
    storeContent (is_duplicate_alert 3600 100 true "k" [⟨"k", .corrupt, true⟩]).2 "k" =
      some .corrupt := by
  decide

/-- C6, amended: a malformed record is treated as absent on read (the
lookup reports a miss, so the alert is not suppressed as a duplicate),
but the lookup does **not** remove the corrupt entry: the
`json.load` exception is caught and the function returns with the store
untouched. -/
theorem claim_C6 (ttl now : Nat) (w : Bool) (h : String) (st : Store)
    (f : CacheFile) (hf : storeFind st h = some f) (hc : f.content = .corrupt) :
    is_duplicate_alert ttl now w h st = (false, st) :=
  is_duplicate_alert_corrupt ttl now w hf hc

/-- C6, witness. -/
theorem claim_C6_witness :
    storeFind [⟨"k", .corrupt, true⟩] "k" = some ⟨"k", .corrupt, true⟩ ∧
    is_duplicate_alert 77 99 false "k" [⟨"k", .corrupt, true⟩] =
      (false, [⟨"k", .corrupt, true⟩]) :=
  ⟨by decide, claim_C6 77 99 false "k" [⟨"k", .corrupt, true⟩]
    ⟨"k", .corrupt, true⟩ (by decide) rfl⟩

/-! ## C7: sweep behavior -/

/-- C7, counterexample.  The first file is corrupt and its unlink fails:
the exception raised by the second `unlink` attempt in the `except`
handler escapes the per-file handling and aborts the whole scan, so the
second file — well-formed and expired (`10000 − 0 > 3600`), with a
perfectly deletable file — survives the sweep, and no count is ever
reported (the aborted run logs an error instead).  This contradicts both
"evicts every record with `now − firstSeen > TTL`" and "tolerating
failures on individual entries without aborting the scan of the
remaining entries". -/
theorem claim_C7_counterexample :
    cleanup_expired_cache 3600 10000
      [⟨"a", .corrupt, false⟩, ⟨"b", .ok ⟨0, 0, 1, ⟨"s", "x", "m", "t"⟩⟩, true⟩] =
      ([⟨"a", .corrupt, false⟩, ⟨"b", .ok ⟨0, 0, 1, ⟨"s", "x", "m", "t"⟩⟩, true⟩],
        0, true) := by
  decide

/-- C7, amended: provided every eviction's `unlink` succeeds, the sweep
evicts exactly the expired (`now − firstSeen > TTL`) and unparsable
records, keeps every well-formed record within TTL, and counts the
evictions (the Python function only logs this count — it returns
`None`).  An individual *parse* failure is tolerated (the corrupt file
is deleted and the scan continues), but a failing *unlink* aborts the
rest of the scan, as the counterexample shows. -/
theorem claim_C7 (ttl now : Nat) (files : List CacheFile)
    (hdel : ∀ f ∈ files, f.deleteOk = true) :
    cleanup_expired_cache ttl now files =
      (files.filter (sweepKeep ttl now),
        (files.filter (fun f => !sweepKeep ttl now f)).length, false) := by
  induction files with
  | nil => rfl
  | cons f fs ih =>
    have hf : f.deleteOk = true := hdel f (List.mem_cons_self f fs)
    have ihr : cleanupGo ttl now fs =
        (fs.filter (sweepKeep ttl now),
          (fs.filter (fun g => !sweepKeep ttl now g)).length, false) :=
      ih (fun g hg => hdel g (List.mem_cons_of_mem f hg))
    show cleanupGo ttl now (f :: fs) = _
    cases hc : f.content with
    | corrupt =>
      have hk : sweepKeep ttl now f = false := by simp [sweepKeep, hc]
      simp [cleanupGo, hc, hf, ihr, List.filter_cons, hk]
    | ok d =>
      by_cases hexp : now - d.timestamp > ttl
      · have hk : sweepKeep ttl now f = false := by
          have hnle : ¬(now - d.timestamp ≤ ttl) := Nat.not_le.mpr hexp
          simp [sweepKeep, hc, hnle]
        simp [cleanupGo, hc, hf, hexp, ihr, List.filter_cons, hk]
      · have hle : now - d.timestamp ≤ ttl := Nat.not_lt.mp hexp
        have hk : sweepKeep ttl now f = true := by simp [sweepKeep, hc, hle]
        simp [cleanupGo, hc, hexp, ihr, List.filter_cons, hk]

/-- C7, witness. -/
theorem claim_C7_witness :
    (∀ f ∈ ([⟨"a", .ok ⟨9000, 9100, 3, ⟨"s", "x", "m", "t"⟩⟩, true⟩,
        ⟨"b", .ok ⟨1000, 1000, 1, ⟨"s", "x", "m", "t"⟩⟩, true⟩,
        ⟨"c", .corrupt, true⟩] : List CacheFile), f.deleteOk = true) ∧
    cleanup_expired_cache 3600 10000
      [⟨"a", .ok ⟨9000, 9100, 3, ⟨"s", "x", "m", "t"⟩⟩, true⟩,
        ⟨"b", .ok ⟨1000, 1000, 1, ⟨"s", "x", "m", "t"⟩⟩, true⟩,
        ⟨"c", .corrupt, true⟩] =
      (([⟨"a", .ok ⟨9000, 9100, 3, ⟨"s", "x", "m", "t"⟩⟩, true⟩,
        ⟨"b", .ok ⟨1000, 1000, 1, ⟨"s", "x", "m", "t"⟩⟩, true⟩,
        ⟨"c", .corrupt, true⟩] : List CacheFile).filter (sweepKeep 3600 10000),
        (([⟨"a", .ok ⟨9000, 9100, 3, ⟨"s", "x", "m", "t"⟩⟩, true⟩,
        ⟨"b", .ok ⟨1000, 1000, 1, ⟨"s", "x", "m", "t"⟩⟩, true⟩,
        ⟨"c", .corrupt, true⟩] : List CacheFile).filter
          (fun f => !sweepKeep 3600 10000 f)).length, false) :=
  ⟨by decide, claim_C7 3600 10000 _ (by decide)⟩

/-! ## C8: the low-severity time-window rule -/

/-- C8, counterexample.  A fresh low-severity alert at hour 10 is
suppressed, but with reason `"Low severity alert during business
hours"`, not the claimed `"low severity during quiet hours"` — the
source implements a (hardcoded 9–17) *business-hours* window, not a
configured quiet-hours window. -/
theorem claim_C8_counterexample :
    (should_suppress_alert 3600 100 10 true true
        ⟨"db", "low", "cpu overload", "cpu"⟩ []).1 =
      (true, "Low severity alert during business hours") ∧
    "Low severity alert during business hours" ≠ "low severity during quiet hours" := by
  constructor
  · decide
  · decide

/-- C8, amended: for a non-duplicate alert whose lower-cased severity is
`low` or `info`, if the current local hour lies in the hardcoded
inclusive window 9–17 the alert is suppressed with reason
`"Low severity alert during business hours"`; at an hour outside that
window the alert is never suppressed with that reason. -/
theorem claim_C8 (ttl now hour : Nat) (a : AlertData) (st : Store)
    (hfresh : storeFind st (generate_alert_hash a) = none)
    (hsev : pyLower a.severity = "low" ∨ pyLower a.severity = "info") :
    (9 ≤ hour → hour ≤ 17 →
      (should_suppress_alert ttl now hour true true a st).1 =
        (true, "Low severity alert during business hours")) ∧
    (¬(9 ≤ hour ∧ hour ≤ 17) →
      (should_suppress_alert ttl now hour true true a st).1 ≠
        (true, "Low severity alert during business hours")) := by
  have hdup := @is_duplicate_alert_of_find_none st (generate_alert_hash a)
    ttl now true hfresh
  have hrun := should_suppress_alert_of_not_dup (a := a) ttl now hour true true hdup
  rw [hrun]
  constructor
  · intro h9 h17
    simp [secondary_rules, hsev, h9, h17]
  · intro hout
    have hcond : ¬((pyLower a.severity = "low" ∨ pyLower a.severity = "info") ∧
        (9 ≤ hour ∧ hour ≤ 17)) := fun hcontr => hout hcontr.2
    simp only [secondary_rules, if_neg hcond]
    split
    · intro e
      have := congrArg Prod.snd e
      exact absurd this (by decide)
    · intro e
      exact Bool.false_ne_true (congrArg Prod.fst e)

/-- C8, witness. -/
theorem claim_C8_witness :
    storeFind []
        (generate_alert_hash ⟨"db", "Low", "cpu overload", "cpu"⟩) = none ∧
    (pyLower (AlertData.severity ⟨"db", "Low", "cpu overload", "cpu"⟩) = "low" ∨
      pyLower (AlertData.severity ⟨"db", "Low", "cpu overload", "cpu"⟩) = "info") ∧
    ((9 ≤ 10 → 10 ≤ 17 →
      (should_suppress_alert 3600 500 10 true true
          ⟨"db", "Low", "cpu overload", "cpu"⟩ []).1 =
        (true, "Low severity alert during business hours")) ∧
    (¬(9 ≤ 10 ∧ 10 ≤ 17) →
      (should_suppress_alert 3600 500 10 true true
          ⟨"db", "Low", "cpu overload", "cpu"⟩ []).1 ≠
        (true, "Low severity alert during business hours"))) :=
  ⟨rfl, by decide,
    claim_C8 3600 500 10 ⟨"db", "Low", "cpu overload", "cpu"⟩ [] rfl (by decide)⟩

/-! ## C4: the dedup window -/

/-- C4, confirmed.  Starting from a store with no record for the
alert's fingerprint, observe the alert at `t0` (which creates the
record) and again at `t0 + d` with no intervening sweep.  The second
observation is suppressed as a duplicate iff `d ≤ ttl`; and if
`d > ttl`, the stale record is deleted during the lookup and the second
observation re-creates it fresh: afterwards the store holds
`firstSeen = lastSeen = t0 + d`, `occurrenceCount = 1`. -/
theorem claim_C4 (ttl t0 d hour1 hour2 : Nat) (a : AlertData) (st0 : Store)
    (hfresh : storeFind st0 (generate_alert_hash a) = none) :
    ((should_suppress_alert ttl (t0 + d) hour2 true true a
        (should_suppress_alert ttl t0 hour1 true true a st0).2).1 =
      (true, dupReason (generate_alert_hash a)) ↔ d ≤ ttl) ∧
    (ttl < d →
      storeContent ((should_suppress_alert ttl (t0 + d) hour2 true true a
          (should_suppress_alert ttl t0 hour1 true true a st0).2).2)
        (generate_alert_hash a) = some (.ok ⟨t0 + d, t0 + d, 1, a⟩)) := by
  have hd1 := is_duplicate_alert_of_find_none ttl t0 true hfresh
  have hrun1 := should_suppress_alert_of_not_dup (a := a) ttl t0 hour1 true true hd1
  have hst1 : (should_suppress_alert ttl t0 hour1 true true a st0).2 =
      storeWrite st0 (generate_alert_hash a) (.ok ⟨t0, t0, 1, a⟩) := by
    rw [hrun1]
    rfl
  rw [hst1]
  have hfind1 : storeFind (storeWrite st0 (generate_alert_hash a) (.ok ⟨t0, t0, 1, a⟩))
      (generate_alert_hash a) = some ⟨generate_alert_hash a, .ok ⟨t0, t0, 1, a⟩, true⟩ :=
    storeFind_storeWrite_none _ hfresh
  by_cases hle : d ≤ ttl
  · have hlive : (t0 + d) - t0 ≤ ttl := by omega
    have hd2 := is_duplicate_alert_hit ttl (t0 + d) hfind1 rfl hlive
    have hrun2 := should_suppress_alert_of_dup (a := a) ttl (t0 + d) hour2 true true hd2
    rw [hrun2]
    exact ⟨by simp [hle], fun hgt => absurd hle (by omega)⟩
  · have hgt : ttl < d := Nat.not_le.mp hle
    have hexp : ttl < (t0 + d) - t0 := by omega
    have hd2 := is_duplicate_alert_expired ttl (t0 + d) true hfind1 rfl hexp rfl
    have hrun2' := should_suppress_alert_of_not_dup (a := a) ttl (t0 + d) hour2 true true hd2
    rw [hrun2']
    constructor
    · constructor
      · intro e
        exact absurd e (secondary_rules_ne_dup hour2 a)
      · intro hcontr
        exact absurd hcontr hle
    · intro _
      show storeContent (cache_alert (t0 + d) true (generate_alert_hash a) a _)
        (generate_alert_hash a) = _
      exact storeContent_storeWrite _ _ _

/-- C4, witness (instantiated at `d = 5000 > ttl = 3600`). -/
theorem claim_C4_witness :
    storeFind [] (generate_alert_hash ⟨"db", "high", "disk full", "disk"⟩) = none ∧
    (((should_suppress_alert 3600 (100 + 5000) 3 true true
        ⟨"db", "high", "disk full", "disk"⟩
        (should_suppress_alert 3600 100 3 true true
          ⟨"db", "high", "disk full", "disk"⟩ []).2).1 =
      (true, dupReason (generate_alert_hash ⟨"db", "high", "disk full", "disk"⟩))
        ↔ 5000 ≤ 3600) ∧
    (3600 < 5000 →
      storeContent ((should_suppress_alert 3600 (100 + 5000) 3 true true
          ⟨"db", "high", "disk full", "disk"⟩
          (should_suppress_alert 3600 100 3 true true
            ⟨"db", "high", "disk full", "disk"⟩ []).2).2)
        (generate_alert_hash ⟨"db", "high", "disk full", "disk"⟩) =
        some (.ok ⟨100 + 5000, 100 + 5000, 1, ⟨"db", "high", "disk full", "disk"⟩⟩))) :=
  ⟨rfl, claim_C4 3600 100 5000 3 3 ⟨"db", "high", "disk full", "disk"⟩ [] rfl⟩

/-! ## C5: occurrence counting -/

theorem observeSeq_invariant (ttl hour t1 : Nat) (a : AlertData) :
    ∀ (ts : List Nat) (st : Store) (f : CacheFile) (l k : Nat),
      storeFind st (generate_alert_hash a) = some f →
      f.content = .ok ⟨t1, l, k, a⟩ →
      (∀ t ∈ ts, t - t1 ≤ ttl) →
      storeContent (observeSeq ttl hour a ts st) (generate_alert_hash a) =
        some (.ok ⟨t1, ts.getLastD l, k + ts.length, a⟩) := by
  intro ts
  induction ts with
  | nil =>
    intro st f l k hfind hc _
    simp [observeSeq, storeContent, hfind, hc]
  | cons t ts' ih =>
    intro st f l k hfind hc hwin
    have hlive : t - t1 ≤ ttl := hwin t (List.mem_cons_self t ts')
    have hd := is_duplicate_alert_hit ttl t hfind hc hlive
    have hrun := should_suppress_alert_of_dup (a := a) ttl t hour true true hd
    have hstep : observeSeq ttl hour a (t :: ts') st =
        observeSeq ttl hour a ts'
          (storeWrite st (generate_alert_hash a) (.ok ⟨t1, t, k + 1, a⟩)) := by
      simp only [observeSeq, List.foldl_cons, hrun]
    rw [hstep]
    have hfind' : storeFind
        (storeWrite st (generate_alert_hash a) (.ok ⟨t1, t, k + 1, a⟩))
        (generate_alert_hash a) =
        some ⟨generate_alert_hash a, .ok ⟨t1, t, k + 1, a⟩, f.deleteOk⟩ :=
      storeFind_storeWrite_some _ hfind
    have hrec := ih (storeWrite st (generate_alert_hash a) (.ok ⟨t1, t, k + 1, a⟩))
      ⟨generate_alert_hash a, .ok ⟨t1, t, k + 1, a⟩, f.deleteOk⟩ t (k + 1) hfind' rfl
      (fun u hu => hwin u (List.mem_cons_of_mem t hu))
    rw [hrec, List.getLastD_cons, List.length_cons]
    have heq : k + 1 + ts'.length = k + (ts'.length + 1) := by omega
    rw [heq]

/-- C5, confirmed.  Starting from a store with no record for the
alert's fingerprint, make `N = 1 + ts.length ≥ 1` sequential
observations of the alert: first at `t1` and then at the times in `ts`,
each within TTL of the first observation.  The record is created with
`occurrenceCount = 1` and every subsequent lookup increments the count
by exactly 1 and sets `lastSeen` to the observation time, so afterwards
the stored record is `⟨firstSeen = t1, lastSeen = last observation,
occurrenceCount = N⟩`. -/
theorem claim_C5 (ttl t1 hour : Nat) (ts : List Nat) (a : AlertData) (st0 : Store)
    (hfresh : storeFind st0 (generate_alert_hash a) = none)
    (hwin : ∀ t ∈ ts, t - t1 ≤ ttl) :
    storeContent (observeSeq ttl hour a (t1 :: ts) st0) (generate_alert_hash a) =
      some (.ok ⟨t1, ts.getLastD t1, 1 + ts.length, a⟩) := by
  have hd1 := is_duplicate_alert_of_find_none ttl t1 true hfresh
  have hrun1 := should_suppress_alert_of_not_dup (a := a) ttl t1 hour true true hd1
  have hstep : observeSeq ttl hour a (t1 :: ts) st0 =
      observeSeq ttl hour a ts
        (storeWrite st0 (generate_alert_hash a) (.ok ⟨t1, t1, 1, a⟩)) := by
    simp only [observeSeq, List.foldl_cons, hrun1]
    rfl
  rw [hstep]
  have hfind1 : storeFind (storeWrite st0 (generate_alert_hash a) (.ok ⟨t1, t1, 1, a⟩))
      (generate_alert_hash a) = some ⟨generate_alert_hash a, .ok ⟨t1, t1, 1, a⟩, true⟩ :=
    storeFind_storeWrite_none _ hfresh
  exact observeSeq_invariant ttl hour t1 a ts
    (storeWrite st0 (generate_alert_hash a) (.ok ⟨t1, t1, 1, a⟩))
    ⟨generate_alert_hash a, .ok ⟨t1, t1, 1, a⟩, true⟩ t1 1 hfind1 rfl hwin

/-- C5, witness: three observations at 100, 150, 3000 (all within
`ttl = 3600` of the first) end with `occurrenceCount = 3`,
`firstSeen = 100`, `lastSeen = 3000`. -/
theorem claim_C5_witness :
    storeFind [] (generate_alert_hash ⟨"web", "high", "memory leak", "memory"⟩) = none ∧
    (∀ t ∈ ([150, 3000] : List Nat), t - 100 ≤ 3600) ∧
    storeContent
        (observeSeq 3600 3 ⟨"web", "high", "memory leak", "memory"⟩ (100 :: [150, 3000]) [])
        (generate_alert_hash ⟨"web", "high", "memory leak", "memory"⟩) =
      some (.ok ⟨100, ([150, 3000] : List Nat).getLastD 100, 1 + ([150, 3000] : List Nat).length,
        ⟨"web", "high", "memory leak", "memory"⟩⟩) :=
  ⟨rfl, by decide,
    claim_C5 3600 100 3 [150, 3000] ⟨"web", "high", "memory leak", "memory"⟩ [] rfl (by decide)⟩

/-! ## C2: the concurrent first-observation race -/

/-- C2, counterexample.  Two concurrent invocations of the same alert
(severity `high`, hour 3, no test keywords), interleaved as
read, read, write, write: both dedup reads happen before either
`cache_alert` write, so both invocations observe a miss and both finish
with the allowed verdict (`done false`) — 2 allowed and 0 suppressed
for `K = 2`, contradicting "exactly one allowed, K−1 duplicates". -/
theorem claim_C2_counterexample :
    (runSched 3600 100 3 ⟨"db", "high", "cpu overload", "cpu"⟩ 2 [0, 1, 0, 1]).2 =
      [.done false, .done false] := by
  decide

theorem secondary_rules_outcomes (hour : Nat) (a : AlertData) :
    secondary_rules hour a = (true, "Low severity alert during business hours") ∨
    secondary_rules hour a = (true, "Test alert detected") ∨
    secondary_rules hour a = (false, "") := by
  unfold secondary_rules
  split
  · exact Or.inl rfl
  · split
    · exact Or.inr (Or.inl rfl)
    · exact Or.inr (Or.inr rfl)

theorem secondary_rules_false {hour : Nat} {a : AlertData}
    (h : (secondary_rules hour a).1 = false) :
    secondary_rules hour a = (false, "") := by
  rcases secondary_rules_outcomes hour a with he | he | he
  · rw [he] at h
    exact absurd h (by simp)
  · rw [he] at h
    exact absurd h (by simp)
  · exact he

theorem runSequential_all_dup (ttl now hour : Nat) (a : AlertData) :
    ∀ (K : Nat) (st : Store) (f : CacheFile) (l k : Nat),
      storeFind st (generate_alert_hash a) = some f →
      f.content = .ok ⟨now, l, k, a⟩ →
      (runSequential ttl now hour a K st).1 =
        List.replicate K (true, dupReason (generate_alert_hash a)) := by
  intro K
  induction K with
  | zero => intro st f l k _ _; rfl
  | succ K' ih =>
    intro st f l k hfind hc
    have hlive : now - now ≤ ttl := by omega
    have hd := is_duplicate_alert_hit ttl now hfind hc hlive
    have hrun := should_suppress_alert_of_dup (a := a) ttl now hour true true hd
    show ((should_suppress_alert ttl now hour true true a st).1 ::
      (runSequential ttl now hour a K'
        (should_suppress_alert ttl now hour true true a st).2).1) = _
    rw [hrun]
    have hfind' := storeFind_storeWrite_some
      (.ok ⟨now, now, k + 1, a⟩) hfind
    rw [ih (storeWrite st (generate_alert_hash a) (.ok ⟨now, now, k + 1, a⟩))
      ⟨generate_alert_hash a, .ok ⟨now, now, k + 1, a⟩, f.deleteOk⟩ now (k + 1) hfind' rfl]
    rfl

/-- C2, amended.  The "exactly one first occurrence" property holds
only when the K invocations are serialized: starting from no record for
the fingerprint, with an alert that the secondary rules allow, K ≥ 1
sequential complete invocations produce exactly one allowed verdict
(the first) and K−1 duplicate-suppressed verdicts.  Under concurrent
interleaving of the dedup read and the `cache_alert` write, the plain
read-then-write store admits runs in which several invocations all
receive the first-occurrence verdict (see the counterexample), because
the script has no atomic create-if-absent primitive. -/
theorem claim_C2 (ttl now hour : Nat) (a : AlertData) (st0 : Store) (K : Nat)
    (hfresh : storeFind st0 (generate_alert_hash a) = none)
    (hsec : (secondary_rules hour a).1 = false) (hK : 1 ≤ K) :
    (runSequential ttl now hour a K st0).1 =
      (false, "") :: List.replicate (K - 1) (true, dupReason (generate_alert_hash a)) := by
  cases K with
  | zero => omega
  | succ K' =>
    have hd1 := is_duplicate_alert_of_find_none ttl now true hfresh
    have hrun1 := should_suppress_alert_of_not_dup (a := a) ttl now hour true true hd1
    show ((should_suppress_alert ttl now hour true true a st0).1 ::
      (runSequential ttl now hour a K'
        (should_suppress_alert ttl now hour true true a st0).2).1) = _
    rw [hrun1]
    have hfind1 : storeFind (storeWrite st0 (generate_alert_hash a) (.ok ⟨now, now, 1, a⟩))
        (generate_alert_hash a) =
        some ⟨generate_alert_hash a, .ok ⟨now, now, 1, a⟩, true⟩ :=
      storeFind_storeWrite_none _ hfresh
    have hdups := runSequential_all_dup ttl now hour a K'
      (storeWrite st0 (generate_alert_hash a) (.ok ⟨now, now, 1, a⟩))
      ⟨generate_alert_hash a, .ok ⟨now, now, 1, a⟩, true⟩ now 1 hfind1 rfl
    show ((secondary_rules hour a,
        cache_alert now true (generate_alert_hash a) a st0).1 :: _) = _
    rw [secondary_rules_false hsec]
    have hst : cache_alert now true (generate_alert_hash a) a st0 =
        storeWrite st0 (generate_alert_hash a) (.ok ⟨now, now, 1, a⟩) := rfl
    rw [hst, hdups]
    rfl

/-- C2, witness (K = 3 serialized invocations). -/
theorem claim_C2_witness :
    storeFind [] (generate_alert_hash ⟨"db", "high", "cpu overload", "cpu"⟩) = none ∧
    (secondary_rules 3 ⟨"db", "high", "cpu overload", "cpu"⟩).1 = false ∧
    1 ≤ 3 ∧
    (runSequential 3600 100 3 ⟨"db", "high", "cpu overload", "cpu"⟩ 3 []).1 =
      (false, "") :: List.replicate (3 - 1)
        (true, dupReason (generate_alert_hash ⟨"db", "high", "cpu overload", "cpu"⟩)) :=
  ⟨rfl, by decide, by decide,
    claim_C2 3600 100 3 ⟨"db", "high", "cpu overload", "cpu"⟩ [] 3 rfl (by decide) (by decide)⟩

/-! ## C10: totality and shape of `parse_alert_content` -/

/-- C10, counterexample.  `"\x7b\x7d"` (empty JSON object) and `"null"`
are non-empty inputs on which `parse_alert_content` returns the raw
`json.loads` value — not a dict with a `message` field equal to the
input — and both are falsy in Python, so the
"Could not parse alert content" hard-failure branch **is** reachable
for non-empty input. -/
theorem claim_C10_counterexample :
    parse_alert_content "\x7b\x7d" = .js (.obj []) ∧
    main_parse_rejects "\x7b\x7d" = true ∧
    parse_alert_content "null" = .js .null ∧
    main_parse_rejects "null" = true :=
  ⟨rfl, rfl, rfl, rfl⟩

/-- C10, amended: only for input that is **not** valid JSON does
`parse_alert_content` build the fallback dict, whose `message` field is
the entire input and whose `type` is one of `cpu`, `memory`, `disk`,
`network`, `general`; that dict is always truthy, so non-JSON input is
never rejected as malformed.  For valid JSON the `json.loads` value is
returned unchanged, and a falsy JSON document (`{}`, `null`, `0`, …)
reaches the "Could not parse alert content" hard-failure branch. -/
theorem claim_C10 (content : String) (hj : jsonLoads content = none) :
    parse_alert_content content =
      .extracted (extract_service content)
        (match extract_severity content with
         | some w => some w
         | none => extract_severity_keyword content)
        content (detect_alert_type content) ∧
    (detect_alert_type content = "cpu" ∨ detect_alert_type content = "memory" ∨
      detect_alert_type content = "disk" ∨ detect_alert_type content = "network" ∨
      detect_alert_type content = "general") ∧
    pyTruthy (parse_alert_content content) = true := by
  have hp : parse_alert_content content =
      .extracted (extract_service content)
        (match extract_severity content with
         | some w => some w
         | none => extract_severity_keyword content)
        content (detect_alert_type content) := by
    unfold parse_alert_content
    rw [hj]
  refine ⟨hp, ?_, ?_⟩
  · unfold detect_alert_type
    split_ifs <;> simp
  · rw [hp]
    rfl

/-- C10, witness. -/
theorem claim_C10_witness :
    jsonLoads "disk almost full" = none ∧
    (parse_alert_content "disk almost full" =
      .extracted (extract_service "disk almost full")
        (match extract_severity "disk almost full" with
         | some w => some w
         | none => extract_severity_keyword "disk almost full")
        "disk almost full" (detect_alert_type "disk almost full") ∧
    (detect_alert_type "disk almost full" = "cpu" ∨
      detect_alert_type "disk almost full" = "memory" ∨
      detect_alert_type "disk almost full" = "disk" ∨
      detect_alert_type "disk almost full" = "network" ∨
      detect_alert_type "disk almost full" = "general") ∧
    pyTruthy (parse_alert_content "disk almost full") = true) :=
  ⟨rfl, claim_C10 "disk almost full" rfl⟩

/-! ## C9 machinery: append-transfer lemmas for the pattern primitives

`postOk post` guarantees that no pattern match can cross from a text
`s` into `post`: every matcher yields the same result on `s ++ post`
as on `s` alone.  The lemmas below establish this per primitive and per
matcher. -/

theorem countLeading_le_length (p : Char → Bool) (l : List Char) :
    countLeading p l ≤ l.length := by
  induction l with
  | nil => simp [countLeading]
  | cons c cs ih =>
    by_cases hc : p c
    · simp only [countLeading, hc, if_true, List.length_cons]
      omega
    · simp [countLeading, hc]

theorem countLeading_append_head (p : Char → Bool) {post : List Char}
    (hp : ∀ c, post.head? = some c → p c = false) (s : List Char) :
    countLeading p (s ++ post) = countLeading p s := by
  induction s with
  | nil =>
    cases post with
    | nil => rfl
    | cons c cs => simp [countLeading, hp c rfl]
  | cons c cs ih =>
    by_cases hc : p c
    · simp [countLeading, hc, ih]
    · simp [countLeading, hc]

theorem countLeading_append_all (p : Char → Bool) {s : List Char}
    (hall : countLeading p s = s.length) (post : List Char) :
    countLeading p (s ++ post) = s.length + countLeading p post := by
  induction s with
  | nil => simp
  | cons c cs ih =>
    have hc : p c = true := by
      by_contra hc
      simp [countLeading, hc] at hall
    simp only [countLeading, hc, if_true, List.length_cons] at hall
    have hcs : countLeading p cs = cs.length := by omega
    show countLeading p (c :: (cs ++ post)) = _
    simp only [countLeading, hc, if_true, ih hcs, List.length_cons]
    omega

theorem countLeading_all_space {s : List Char}
    (hall : countLeading isSpaceC s = s.length) : ∀ c ∈ s, isSpaceC c = true := by
  induction s with
  | nil => simp
  | cons c cs ih =>
    have hc : isSpaceC c = true := by
      by_contra hc
      simp [countLeading, hc] at hall
    simp only [countLeading, hc, if_true, List.length_cons] at hall
    intro d hd
    rcases List.mem_cons.mp hd with h | h
    · rw [h]; exact hc
    · exact ih (by omega) d h

theorem drop_countLeading_eq_dropWhile (p : Char → Bool) (l : List Char) :
    l.drop (countLeading p l) = l.dropWhile p := by
  induction l with
  | nil => rfl
  | cons c cs ih =>
    by_cases hc : p c
    · show (c :: cs).drop (countLeading p (c :: cs)) = _
      simp [countLeading, hc, List.dropWhile_cons, ih]
    · show (c :: cs).drop (countLeading p (c :: cs)) = _
      simp [countLeading, hc, List.dropWhile_cons]

/-- Strong transfer: the primitive behaves on `s ++ post` exactly as on
`s`, with the rest extended by `post`. -/
def PatApp (p : Pat) (post : List Char) : Prop :=
  ∀ s, p (s ++ post) = (p s).map (fun r => (r.1, r.2 ++ post))

/-- Weak transfer: as strong, or both sides fail. -/
def PatAppW (p : Pat) (post : List Char) : Prop :=
  ∀ s, p (s ++ post) = (p s).map (fun r => (r.1, r.2 ++ post)) ∨
    (p (s ++ post) = none ∧ p s = none)

theorem PatApp.toW {p : Pat} {post : List Char} (h : PatApp p post) :
    PatAppW p post := fun s => Or.inl (h s)

theorem pSeq_app {p q : Pat} {post : List Char}
    (hp : PatApp p post) (hq : PatAppW q post) :
    PatAppW (pSeq p q) post := by
  intro s
  unfold pSeq
  rw [hp s]
  cases hps : p s with
  | none => exact Or.inl rfl
  | some nr =>
    rcases hq nr.2 with hw | ⟨hw1, hw2⟩
    · refine Or.inl ?_
      show (q (nr.2 ++ post)).map (fun s' => (nr.1 + s'.1, s'.2)) =
        ((q nr.2).map (fun s' => (nr.1 + s'.1, s'.2))).map (fun r => (r.1, r.2 ++ post))
      rw [hw]
      cases q nr.2 with
      | none => rfl
      | some mr => rfl
    · refine Or.inr ⟨?_, ?_⟩
      · show (q (nr.2 ++ post)).map (fun s' => (nr.1 + s'.1, s'.2)) = none
        rw [hw1]
        rfl
      · show (q nr.2).map (fun s' => (nr.1 + s'.1, s'.2)) = none
        rw [hw2]
        rfl

theorem pDigitsN_app {post : List Char}
    (hp : ∀ c, post.head? = some c → isDigitC c = false) (n : Nat) :
    PatApp (pDigitsN n) post := by
  intro s
  induction n generalizing s with
  | zero => rfl
  | succ m ih =>
    cases s with
    | nil =>
      cases post with
      | nil => simp [pDigitsN]
      | cons c cs => simp [pDigitsN, hp c rfl]
    | cons c cs =>
      by_cases hc : isDigitC c
      · show pDigitsN (m + 1) (c :: (cs ++ post)) = _
        simp only [pDigitsN, hc, if_true]
        rw [ih cs]
        cases pDigitsN m cs <;> simp
      · simp [pDigitsN, hc]

theorem pChar_app {post : List Char} {ch : Char}
    (hp : ∀ c, post.head? = some c → (c == ch) = false) :
    PatApp (pChar ch) post := by
  intro s
  cases s with
  | nil =>
    cases post with
    | nil => simp [pChar]
    | cons c cs => simp [pChar, hp c rfl]
  | cons c cs =>
    by_cases hc : c == ch
    · simp [pChar, hc]
    · simp [pChar, hc]

theorem pDigits1_app {post : List Char}
    (hp : ∀ c, post.head? = some c → isDigitC c = false) :
    PatApp pDigits1 post := by
  intro s
  unfold pDigits1
  rw [countLeading_append_head isDigitC hp s]
  by_cases h0 : countLeading isDigitC s = 0
  · simp [h0]
  · simp only [h0, if_false]
    rw [List.drop_append_of_le_length (countLeading_le_length _ _)]
    simp

theorem pOctet_app {post : List Char}
    (hp : ∀ c, post.head? = some c → isDigitC c = false) :
    PatApp pOctet post := by
  intro s
  unfold pOctet
  rw [countLeading_append_head isDigitC hp s]
  by_cases hz : countLeading isDigitC s = 0
  · simp [hz]
  · by_cases h3 : 3 < countLeading isDigitC s
    · simp [hz, h3]
    · have hdrop := @List.drop_append_of_le_length _ _ post _
        (countLeading_le_length isDigitC s)
      simp [hz, h3, hdrop]

theorem listStartsWith_append {pat post : List Char}
    (hpat : ∀ c ∈ pat, (c == ' ') = false)
    (hpost : post.head? = some ' ' ∨ post = []) :
    ∀ x, listStartsWith pat (x ++ post) = listStartsWith pat x := by
  induction pat with
  | nil => intro x; rfl
  | cons p ps ih =>
    intro x
    cases x with
    | nil =>
      rcases hpost with h | h
      · cases post with
        | nil => simp at h
        | cons c cs =>
          have hcsp : c = ' ' := by simpa using h
          subst hcsp
          have hps : (p == ' ') = false := hpat p (List.mem_cons_self p ps)
          simp [listStartsWith, hps]
      · rw [h]
        rfl
    | cons c cs =>
      show listStartsWith (p :: ps) (c :: (cs ++ post)) = _
      simp only [listStartsWith]
      rw [ih (fun d hd => hpat d (List.mem_cons_of_mem p hd)) cs]

theorem listStartsWith_length_le {pat x : List Char}
    (h : listStartsWith pat x = true) : pat.length ≤ x.length := by
  induction pat generalizing x with
  | nil => simp
  | cons p ps ih =>
    cases x with
    | nil => simp [listStartsWith] at h
    | cons c cs =>
      simp only [listStartsWith, Bool.and_eq_true] at h
      have := ih h.2
      simp only [List.length_cons]
      omega

theorem pSizeUnit_app {post : List Char}
    (hpost : post.head? = some ' ' ∨ post = []) :
    PatApp pSizeUnit post := by
  intro s
  unfold pSizeUnit
  rw [listStartsWith_append (by decide) hpost,
    listStartsWith_append (by decide) hpost,
    listStartsWith_append (by decide) hpost,
    listStartsWith_append (by decide) hpost,
    listStartsWith_append (by decide) hpost]
  by_cases h1 : listStartsWith ['M', 'B'] s
  · have hl : 2 ≤ s.length := by simpa using listStartsWith_length_le h1
    simp [h1, @List.drop_append_of_le_length _ _ post _ hl]
  · simp only [h1, if_false]
    by_cases h2 : listStartsWith ['G', 'B'] s
    · have hl : 2 ≤ s.length := by simpa using listStartsWith_length_le h2
      simp [h2, @List.drop_append_of_le_length _ _ post _ hl]
    · simp only [h2, if_false]
      by_cases h3 : listStartsWith ['K', 'B'] s
      · have hl : 2 ≤ s.length := by simpa using listStartsWith_length_le h3
        simp [h3, @List.drop_append_of_le_length _ _ post _ hl]
      · simp only [h3, if_false]
        by_cases h4 : listStartsWith ['b', 'y', 't', 'e', 's'] s
        · have hl : 5 ≤ s.length := by simpa using listStartsWith_length_le h4
          simp [h4, @List.drop_append_of_le_length _ _ post _ hl]
        · simp only [h4, if_false]
          by_cases h5 : listStartsWith ['b', 'y', 't', 'e'] s
          · have hl : 4 ≤ s.length := by simpa using listStartsWith_length_le h5
            simp [h5, @List.drop_append_of_le_length _ _ post _ hl]
          · simp [h5]

theorem pSeq_app_strong {p q : Pat} {post : List Char}
    (hp : PatApp p post) (hq : PatApp q post) : PatApp (pSeq p q) post := by
  intro s
  unfold pSeq
  rw [hp s]
  cases hps : p s with
  | none => rfl
  | some nr =>
    show (q (nr.2 ++ post)).map (fun s' => (nr.1 + s'.1, s'.2)) =
      ((q nr.2).map (fun s' => (nr.1 + s'.1, s'.2))).map (fun r => (r.1, r.2 ++ post))
    rw [hq nr.2]
    cases q nr.2 <;> rfl

theorem map_fst_of_patW {pat : Pat} {post : List Char}
    (h : PatAppW pat post) (s : List Char) :
    (pat (s ++ post)).map (·.1) = (pat s).map (·.1) := by
  rcases h s with hw | ⟨h1, h2⟩
  · rw [hw]
    cases pat s <;> rfl
  · rw [h1, h2]

theorem countLeading_append_of_lt {p : Char → Bool} {s : List Char}
    (h : countLeading p s < s.length) (post : List Char) :
    countLeading p (s ++ post) = countLeading p s := by
  induction s with
  | nil => simp at h
  | cons c cs ih =>
    by_cases hc : p c
    · simp only [countLeading, hc, if_true, List.length_cons] at h ⊢
      show countLeading p (cs ++ post) + 1 = _
      rw [ih (by omega)]
    · simp [countLeading, hc]

theorem headWord_append {post : List Char} (hpost : headWord post = false) :
    ∀ a : List Char, headWord (a ++ post) = headWord a := by
  intro a
  cases a with
  | nil => simpa using hpost
  | cons c cs => rfl

theorem postOk_head {post : List Char} (hp : postOk post = true) :
    post.head? = some ' ' ∨ post = [] := by
  cases post with
  | nil => exact Or.inr rfl
  | cons c cs =>
    simp only [postOk, Bool.and_eq_true, beq_iff_eq] at hp
    exact Or.inl (by rw [hp.1.1]; rfl)

theorem postOk_head_nondigit {post : List Char} (hp : postOk post = true) :
    ∀ c, post.head? = some c → isDigitC c = false := by
  intro c hc
  rcases postOk_head hp with h | h
  · rw [h] at hc
    cases hc
    decide
  · rw [h] at hc
    cases hc

theorem postOk_head_ne {post : List Char} (hp : postOk post = true)
    {ch : Char} (hch : (' ' == ch) = false) :
    ∀ c, post.head? = some c → (c == ch) = false := by
  intro c hc
  rcases postOk_head hp with h | h
  · rw [h] at hc
    cases hc
    exact hch
  · rw [h] at hc
    cases hc

theorem postOk_second {post : List Char} (hp : postOk post = true) :
    ∀ c, post.tail.head? = some c → isDigitC c = false := by
  intro c hc
  cases post with
  | nil => cases hc
  | cons a rest =>
    cases rest with
    | nil => cases hc
    | cons d ds =>
      simp only [List.tail_cons, List.head?_cons, Option.some.injEq] at hc
      subst hc
      simp only [postOk, Bool.and_eq_true] at hp
      simpa using hp.1.2

theorem postOk_unitFree {post : List Char} (hp : postOk post = true) :
    unitFreeHead post = true := by
  cases post with
  | nil => rfl
  | cons c cs =>
    simp only [postOk, Bool.and_eq_true] at hp
    exact hp.2

theorem postOk_headWord {post : List Char} (hp : postOk post = true) :
    headWord post = false := by
  rcases postOk_head hp with h | h
  · cases post with
    | nil => rfl
    | cons c cs =>
      simp only [List.head?_cons, Option.some.injEq] at h
      subst h
      rfl
  · rw [h]
    rfl

theorem pPred_cons_pos {pr : Char → Bool} {c : Char} (hc : pr c = true)
    (l : List Char) : pPred pr (c :: l) = some (1, l) := by
  simp [pPred, hc]

theorem pPred_cons_neg {pr : Char → Bool} {c : Char} (hc : pr c = false)
    (l : List Char) : pPred pr (c :: l) = none := by
  simp [pPred, hc]

theorem pSeq_pred_app {pr : Char → Bool} {q : Pat} {post : List Char}
    (hq : PatAppW q post)
    (hnil : (pSeq (pPred pr) q) post = none) :
    PatAppW (pSeq (pPred pr) q) post := by
  intro s
  have estep : ∀ (c : Char) (l : List Char), pr c = true →
      pSeq (pPred pr) q (c :: l) = (q l).map (fun s' => (1 + s'.1, s'.2)) := by
    intro c l hc
    unfold pSeq
    rw [pPred_cons_pos hc]
    rfl
  have estepn : ∀ (c : Char) (l : List Char), pr c = false →
      pSeq (pPred pr) q (c :: l) = none := by
    intro c l hc
    unfold pSeq
    rw [pPred_cons_neg hc]
    rfl
  cases s with
  | nil =>
    right
    exact ⟨hnil, rfl⟩
  | cons c cs =>
    by_cases hc : pr c = true
    · rcases hq cs with hw | ⟨h1, h2⟩
      · left
        rw [show ((c :: cs) ++ post) = c :: (cs ++ post) from rfl,
          estep c (cs ++ post) hc, estep c cs hc, hw]
        cases q cs <;> rfl
      · right
        constructor
        · rw [show ((c :: cs) ++ post) = c :: (cs ++ post) from rfl,
            estep c (cs ++ post) hc, h1]
          rfl
        · rw [estep c cs hc, h2]
          rfl
    · left
      have hc' : pr c = false := by
        cases h : pr c
        · rfl
        · exact absurd h hc
      rw [show ((c :: cs) ++ post) = c :: (cs ++ post) from rfl,
        estepn c (cs ++ post) hc', estepn c cs hc']
      rfl

theorem pSeq_spaces_appW {q : Pat} {post : List Char}
    (hq : PatApp q post)
    (hqdw : q (post.dropWhile isSpaceC) = none) (hqnil : q [] = none) :
    PatAppW (pSeq pSpaces0 q) post := by
  intro r
  by_cases hall : countLeading isSpaceC r = r.length
  · right
    constructor
    · simp only [pSeq, pSpaces0]
      rw [countLeading_append_all _ hall post]
      have hdrop : (r ++ post).drop (r.length + countLeading isSpaceC post) =
          post.dropWhile isSpaceC := by
        rw [List.drop_append, drop_countLeading_eq_dropWhile]
      simp only [hdrop]
      show (q (post.dropWhile isSpaceC)).map _ = none
      rw [hqdw]
      rfl
    · simp only [pSeq, pSpaces0]
      simp only [hall, List.drop_length]
      show (q []).map _ = none
      rw [hqnil]
      rfl
  · left
    have hlt : countLeading isSpaceC r < r.length :=
      lt_of_le_of_ne (countLeading_le_length _ _) hall
    simp only [pSeq, pSpaces0]
    rw [countLeading_append_of_lt hlt post,
      List.drop_append_of_le_length (countLeading_le_length _ _)]
    show (q (r.drop (countLeading isSpaceC r) ++ post)).map _ =
      ((q (r.drop (countLeading isSpaceC r))).map _).map _
    rw [hq (r.drop (countLeading isSpaceC r))]
    cases q (r.drop (countLeading isSpaceC r)) <;> rfl

/-! ## Per-matcher transfer lemmas -/

theorem patHMS_appW {post : List Char} (hp : postOk post = true) :
    PatAppW patHMS post := by
  have hd := postOk_head_nondigit hp
  have hcolon := @postOk_head_ne _ hp ':' (by decide)
  exact pSeq_app (pDigitsN_app hd 2)
    (pSeq_app (pChar_app hcolon)
      (pSeq_app (pDigitsN_app hd 2)
        (pSeq_app (pChar_app hcolon) (pDigitsN_app hd 2).toW)))

theorem matchTime_append {post : List Char} (hp : postOk post = true)
    (prev : Bool) (s : List Char) :
    matchTime prev (s ++ post) = matchTime prev s := by
  unfold matchTime
  exact map_fst_of_patW (patHMS_appW hp) s

theorem patDate_app {post : List Char} (hp : postOk post = true) :
    PatApp patDate post := by
  have hd := postOk_head_nondigit hp
  have hdash := @postOk_head_ne _ hp '-' (by decide)
  exact pSeq_app_strong (pDigitsN_app hd 4)
    (pSeq_app_strong (pChar_app hdash)
      (pSeq_app_strong (pDigitsN_app hd 2)
        (pSeq_app_strong (pChar_app hdash) (pDigitsN_app hd 2))))

theorem patTS_post_none {post : List Char} (hp : postOk post = true) :
    patTS post = none := by
  cases post with
  | nil => rfl
  | cons c ps =>
    have hc : c = ' ' := by
      rcases postOk_head hp with h | h
      · simpa using h
      · cases h
    subst hc
    show (pSeq (pPred prTS) patHMS) (' ' :: ps) = none
    unfold pSeq
    rw [pPred_cons_pos (by decide) ps]
    show (patHMS ps).map _ = none
    have hnone : patHMS ps = none := by
      cases ps with
      | nil => rfl
      | cons d ds =>
        have hd : isDigitC d = false := postOk_second hp d rfl
        show ((pDigitsN 2 (d :: ds)).bind _) = none
        rw [show pDigitsN 2 (d :: ds) = none by simp [pDigitsN, hd]]
        rfl
    rw [hnone]
    rfl

theorem matchTimestamp_append {post : List Char} (hp : postOk post = true)
    (prev : Bool) (s : List Char) :
    matchTimestamp prev (s ++ post) = matchTimestamp prev s := by
  unfold matchTimestamp
  exact map_fst_of_patW
    (pSeq_app (patDate_app hp) (pSeq_pred_app (patHMS_appW hp) (patTS_post_none hp))) s

theorem matchPercent_append {post : List Char} (hp : postOk post = true)
    (prev : Bool) (s : List Char) :
    matchPercent prev (s ++ post) = matchPercent prev s := by
  have hd := postOk_head_nondigit hp
  have hdot := @postOk_head_ne _ hp '.' (by decide)
  have hpct := @postOk_head_ne _ hp '%' (by decide)
  unfold matchPercent
  cases prev with
  | true => rfl
  | false =>
    simp only [if_false, Bool.false_eq_true]
    exact map_fst_of_patW
      ((pSeq_app_strong (pDigits1_app hd)
        (pSeq_app_strong (pChar_app hdot)
          (pSeq_app_strong (pDigits1_app hd) (pChar_app hpct)))).toW) s

theorem pSizeUnit_none_unitFree {l : List Char}
    (h : match l with
      | [] => True
      | d :: _ => ¬(d = 'M' ∨ d = 'G' ∨ d = 'K' ∨ d = 'b')) :
    pSizeUnit l = none := by
  cases l with
  | nil => rfl
  | cons d ds =>
    have hM : ¬('M' = d) := fun he => h (Or.inl he.symm)
    have hG : ¬('G' = d) := fun he => h (Or.inr (Or.inl he.symm))
    have hK : ¬('K' = d) := fun he => h (Or.inr (Or.inr (Or.inl he.symm)))
    have hB : ¬('b' = d) := fun he => h (Or.inr (Or.inr (Or.inr he.symm)))
    simp [pSizeUnit, listStartsWith, hM, hG, hK, hB]

theorem unitFreeHead_dropWhile_size {post : List Char}
    (hu : unitFreeHead post = true) :
    pSizeUnit (post.dropWhile isSpaceC) = none := by
  apply pSizeUnit_none_unitFree
  unfold unitFreeHead at hu
  cases hdw : post.dropWhile isSpaceC with
  | nil => trivial
  | cons d ds =>
    rw [hdw] at hu
    intro hd
    rcases hd with h | h | h | h <;> simp [h] at hu

theorem matchSize_append {post : List Char} (hp : postOk post = true)
    (prev : Bool) (s : List Char) :
    matchSize prev (s ++ post) = matchSize prev s := by
  have hd := postOk_head_nondigit hp
  unfold matchSize
  cases prev with
  | true => rfl
  | false =>
    simp only [if_false, Bool.false_eq_true]
    exact map_fst_of_patW
      (pSeq_app (pDigits1_app hd)
        (pSeq_spaces_appW (pSizeUnit_app (postOk_head hp))
          (unitFreeHead_dropWhile_size (postOk_unitFree hp)) rfl)) s

theorem patMs_dropWhile_none {post : List Char}
    (hu : unitFreeHead post = true) :
    patMs (post.dropWhile isSpaceC) = none := by
  unfold unitFreeHead at hu
  cases hdw : post.dropWhile isSpaceC with
  | nil => rfl
  | cons d ds =>
    rw [hdw] at hu
    have hm : (d == 'm') = false := by
      cases hdm : d == 'm'
      · rfl
      · rw [show d = 'm' by simpa using hdm] at hu
        simp at hu
    show ((pChar 'm' (d :: ds)).bind _) = none
    rw [show pChar 'm' (d :: ds) = none by simp [pChar, hm]]
    rfl

theorem matchDuration_append {post : List Char} (hp : postOk post = true)
    (prev : Bool) (s : List Char) :
    matchDuration prev (s ++ post) = matchDuration prev s := by
  have hd := postOk_head_nondigit hp
  have hm := @postOk_head_ne _ hp 'm' (by decide)
  have hs := @postOk_head_ne _ hp 's' (by decide)
  unfold matchDuration
  cases prev with
  | true => rfl
  | false =>
    simp only [if_false, Bool.false_eq_true]
    exact map_fst_of_patW
      (pSeq_app (pDigits1_app hd)
        (pSeq_spaces_appW
          (pSeq_app_strong (pChar_app hm) (pChar_app hs))
          (patMs_dropWhile_none (postOk_unitFree hp)) rfl)) s

theorem ipCore_app {post : List Char} (hp : postOk post = true) :
    PatApp ipCore post := by
  have hd := postOk_head_nondigit hp
  have hdot := @postOk_head_ne _ hp '.' (by decide)
  exact pSeq_app_strong (pOctet_app hd)
    (pSeq_app_strong (pChar_app hdot)
      (pSeq_app_strong (pOctet_app hd)
        (pSeq_app_strong (pChar_app hdot)
          (pSeq_app_strong (pOctet_app hd)
            (pSeq_app_strong (pChar_app hdot) (pOctet_app hd))))))

theorem matchIp_append {post : List Char} (hp : postOk post = true)
    (prev : Bool) (s : List Char) :
    matchIp prev (s ++ post) = matchIp prev s := by
  unfold matchIp
  cases prev with
  | true => rfl
  | false =>
    simp only [if_false, Bool.false_eq_true]
    rw [ipCore_app hp s]
    cases hc : ipCore s with
    | none => rfl
    | some nr =>
      obtain ⟨n, rest⟩ := nr
      show (if (rest ++ post).head? = some ':' then
          if 0 < countLeading isDigitC (rest ++ post).tail then
            if headWord ((rest ++ post).tail.drop (countLeading isDigitC (rest ++ post).tail)) then
              some n
            else some (n + 1 + countLeading isDigitC (rest ++ post).tail)
          else some n
        else if headWord (rest ++ post) then none else some n) =
        (if rest.head? = some ':' then
          if 0 < countLeading isDigitC rest.tail then
            if headWord (rest.tail.drop (countLeading isDigitC rest.tail)) then some n
            else some (n + 1 + countLeading isDigitC rest.tail)
          else some n
        else if headWord rest then none else some n)
      cases rest with
      | nil =>
        have hnpost : ¬(post.head? = some ':') := by
          rcases postOk_head hp with h | h
          · rw [h]
            decide
          · rw [h]
            decide
        simp only [List.nil_append]
        rw [if_neg hnpost, if_neg (show ¬(([] : List Char).head? = some ':') by decide)]
        simp only [postOk_headWord hp]
        rfl
      | cons a as =>
        simp only [List.cons_append]
        by_cases ha : a = ':'
        · subst ha
          rw [if_pos (show (':' :: (as ++ post)).head? = some ':' from rfl),
            if_pos (show ((':' :: as) : List Char).head? = some ':' from rfl)]
          show (if 0 < countLeading isDigitC (as ++ post) then
              if headWord ((as ++ post).drop (countLeading isDigitC (as ++ post))) then some n
              else some (n + 1 + countLeading isDigitC (as ++ post))
            else some n) =
            (if 0 < countLeading isDigitC as then
              if headWord (as.drop (countLeading isDigitC as)) then some n
              else some (n + 1 + countLeading isDigitC as)
            else some n)
          rw [countLeading_append_head isDigitC (postOk_head_nondigit hp) as]
          by_cases hpn : 0 < countLeading isDigitC as
          · rw [if_pos hpn, if_pos hpn,
              List.drop_append_of_le_length (countLeading_le_length _ _),
              headWord_append (postOk_headWord hp)]
          · rw [if_neg hpn, if_neg hpn]
        · have h1 : ¬((a :: (as ++ post)).head? = some ':') := by
            simp only [List.head?_cons, Option.some.injEq]
            exact ha
          have h2 : ¬((a :: as).head? = some ':') := by
            simp only [List.head?_cons, Option.some.injEq]
            exact ha
          rw [if_neg h1, if_neg h2]
          rfl

/-! ## Digit-start lemmas: every pattern begins with a digit -/

theorem matchTimestamp_nondigit {c : Char} (hc : isDigitC c = false)
    (prev : Bool) (l : List Char) : matchTimestamp prev (c :: l) = none := by
  have h4 : pDigitsN 4 (c :: l) = none := by simp [pDigitsN, hc]
  have hd : patDate (c :: l) = none := by
    unfold patDate pSeq
    rw [h4]
    rfl
  unfold matchTimestamp pSeq
  rw [hd]
  rfl

theorem matchTime_nondigit {c : Char} (hc : isDigitC c = false)
    (prev : Bool) (l : List Char) : matchTime prev (c :: l) = none := by
  have h2 : pDigitsN 2 (c :: l) = none := by simp [pDigitsN, hc]
  unfold matchTime patHMS pSeq
  rw [h2]
  rfl

theorem pDigits1_nondigit {c : Char} (hc : isDigitC c = false)
    (l : List Char) : pDigits1 (c :: l) = none := by
  simp [pDigits1, countLeading, hc]

theorem matchPercent_nondigit {c : Char} (hc : isDigitC c = false)
    (prev : Bool) (l : List Char) : matchPercent prev (c :: l) = none := by
  cases prev with
  | true => rfl
  | false =>
    unfold matchPercent patPercent pSeq
    rw [pDigits1_nondigit hc]
    rfl

theorem matchSize_nondigit {c : Char} (hc : isDigitC c = false)
    (prev : Bool) (l : List Char) : matchSize prev (c :: l) = none := by
  cases prev with
  | true => rfl
  | false =>
    unfold matchSize patSize pSeq
    rw [pDigits1_nondigit hc]
    rfl

theorem matchDuration_nondigit {c : Char} (hc : isDigitC c = false)
    (prev : Bool) (l : List Char) : matchDuration prev (c :: l) = none := by
  cases prev with
  | true => rfl
  | false =>
    unfold matchDuration patDuration pSeq
    rw [pDigits1_nondigit hc]
    rfl

theorem matchIp_nondigit {c : Char} (hc : isDigitC c = false)
    (prev : Bool) (l : List Char) : matchIp prev (c :: l) = none := by
  cases prev with
  | true => rfl
  | false =>
    have ho : pOctet (c :: l) = none := by simp [pOctet, countLeading, hc]
    unfold matchIp ipCore pSeq
    rw [ho]
    rfl

theorem passMatcher_nondigit (j : Nat) {c : Char} (hc : isDigitC c = false)
    (prev : Bool) (l : List Char) : passMatcher j prev (c :: l) = none :=
  match j with
  | 0 => matchTimestamp_nondigit hc prev l
  | 1 => matchTime_nondigit hc prev l
  | 2 => matchPercent_nondigit hc prev l
  | 3 => matchSize_nondigit hc prev l
  | 4 => matchDuration_nondigit hc prev l
  | _ + 5 => matchIp_nondigit hc prev l

theorem passMatcher_append (j : Nat) {post : List Char} (hp : postOk post = true)
    (prev : Bool) (s : List Char) :
    passMatcher j prev (s ++ post) = passMatcher j prev s :=
  match j with
  | 0 => matchTimestamp_append hp prev s
  | 1 => matchTime_append hp prev s
  | 2 => matchPercent_append hp prev s
  | 3 => matchSize_append hp prev s
  | 4 => matchDuration_append hp prev s
  | _ + 5 => matchIp_append hp prev s

theorem matchPercent_nil (prev : Bool) : matchPercent prev [] = none := by
  cases prev <;> rfl

theorem matchSize_nil (prev : Bool) : matchSize prev [] = none := by
  cases prev <;> rfl

theorem matchDuration_nil (prev : Bool) : matchDuration prev [] = none := by
  cases prev <;> rfl

theorem matchIp_nil (prev : Bool) : matchIp prev [] = none := by
  cases prev <;> rfl

theorem passMatcher_nil (j : Nat) (prev : Bool) : passMatcher j prev [] = none :=
  match j with
  | 0 => rfl
  | 1 => rfl
  | 2 => matchPercent_nil prev
  | 3 => matchSize_nil prev
  | 4 => matchDuration_nil prev
  | _ + 5 => matchIp_nil prev

/-! ## Scanner decomposition lemmas -/

theorem endPrevWord_cons (prev : Bool) (c : Char) (cs : List Char) :
    endPrevWord prev (c :: cs) = endPrevWord (isWordC c) cs := by
  cases cs with
  | nil => rfl
  | cons d ds =>
    unfold endPrevWord
    rw [List.getLast?_cons_cons]
    cases h : (d :: ds).getLast? with
    | none => simp at h
    | some e => rfl

theorem endPrevWord_endsSp {lit : List Char} (hsp : endsSp lit = true)
    (hne : lit ≠ []) (b : Bool) : endPrevWord b lit = false := by
  unfold endPrevWord
  unfold endsSp at hsp
  cases hl : lit.getLast? with
  | none =>
    rw [List.getLast?_eq_none_iff] at hl
    exact absurd hl hne
  | some c =>
    rw [hl] at hsp
    have : c = ' ' := by simpa using hsp
    rw [this]
    rfl

theorem reSubGo_fuel {m : Matcher} {repl : List Char} :
    ∀ (fuel1 fuel2 : Nat) (prev : Bool) (l : List Char),
      l.length < fuel1 → l.length < fuel2 →
      reSubGo m repl fuel1 prev l = reSubGo m repl fuel2 prev l := by
  intro fuel1
  induction fuel1 with
  | zero =>
    intro fuel2 prev l h1 h2
    omega
  | succ f ih =>
    intro fuel2 prev l h1 h2
    cases fuel2 with
    | zero => omega
    | succ g =>
      cases l with
      | nil => rfl
      | cons c cs =>
        simp only [List.length_cons] at h1 h2
        cases hm : m prev (c :: cs) with
        | none =>
          show reSubGo m repl (f + 1) prev (c :: cs) = reSubGo m repl (g + 1) prev (c :: cs)
          simp only [reSubGo, hm]
          rw [ih g (isWordC c) cs (by omega) (by omega)]
        | some k =>
          cases k with
          | zero =>
            show reSubGo m repl (f + 1) prev (c :: cs) = reSubGo m repl (g + 1) prev (c :: cs)
            simp only [reSubGo, hm]
            rw [ih g (isWordC c) cs (by omega) (by omega)]
          | succ n =>
            show reSubGo m repl (f + 1) prev (c :: cs) = reSubGo m repl (g + 1) prev (c :: cs)
            simp only [reSubGo, hm]
            have hlen : ((c :: cs).drop (n + 1)).length < f := by
              rw [List.length_drop]
              simp only [List.length_cons]
              omega
            have hlen2 : ((c :: cs).drop (n + 1)).length < g := by
              rw [List.length_drop]
              simp only [List.length_cons]
              omega
            rw [ih g (isWordC ((c :: cs).getD n c)) ((c :: cs).drop (n + 1)) hlen hlen2]

theorem reSubGo_clear_noDigits {m : Matcher} {repl : List Char}
    (hstart : ∀ (prev : Bool) (c : Char) (l : List Char),
      isDigitC c = false → m prev (c :: l) = none) :
    ∀ (seg : List Char), noDigits seg = true →
    ∀ (rest : List Char) (prev : Bool) (fuel : Nat), (seg ++ rest).length < fuel →
      reSubGo m repl fuel prev (seg ++ rest) =
        seg ++ reSubGo m repl (rest.length + 1) (endPrevWord prev seg) rest := by
  intro seg
  induction seg with
  | nil =>
    intro _ rest prev fuel hf
    exact reSubGo_fuel fuel (rest.length + 1) prev rest (by simpa using hf) (by omega)
  | cons c cs ih =>
    intro hseg rest prev fuel hf
    have hall : (!isDigitC c) = true ∧ cs.all (fun d => !isDigitC d) = true := by
      simpa [noDigits, List.all_cons, Bool.and_eq_true] using hseg
    have hc : isDigitC c = false := by simpa using hall.1
    cases fuel with
    | zero => simp at hf
    | succ f =>
      simp only [List.cons_append, List.length_cons] at hf ⊢
      show reSubGo m repl (f + 1) prev (c :: (cs ++ rest)) = _
      simp only [reSubGo, hstart prev c (cs ++ rest) hc]
      rw [ih hall.2 rest (isWordC c) f (by simpa using (by omega : (cs ++ rest).length < f)),
        endPrevWord_cons]

theorem reSubGo_clear_inert {m : Matcher} {repl post : List Char}
    (htr : ∀ (prev : Bool) (s : List Char), m prev (s ++ post) = m prev s) :
    ∀ (v : List Char) (prev : Bool), noMatchIn m prev v = true →
    ∀ (fuel : Nat), (v ++ post).length < fuel →
      reSubGo m repl fuel prev (v ++ post) =
        v ++ reSubGo m repl (post.length + 1) (endPrevWord prev v) post := by
  intro v
  induction v with
  | nil =>
    intro prev _ fuel hf
    exact reSubGo_fuel fuel (post.length + 1) prev post (by simpa using hf) (by omega)
  | cons c cs ih =>
    intro prev hclear fuel hf
    have hc : (m prev (c :: cs)).isNone = true ∧ noMatchIn m (isWordC c) cs = true := by
      simpa [noMatchIn, Bool.and_eq_true] using hclear
    have hnone : m prev (c :: (cs ++ post)) = none := by
      have := htr prev (c :: cs)
      rw [show ((c :: cs) ++ post) = c :: (cs ++ post) from rfl] at this
      rw [this]
      exact Option.isNone_iff_eq_none.mp hc.1
    cases fuel with
    | zero => simp at hf
    | succ f =>
      simp only [List.cons_append, List.length_cons] at hf ⊢
      show reSubGo m repl (f + 1) prev (c :: (cs ++ post)) = _
      simp only [reSubGo, hnone]
      rw [ih (isWordC c) hc.2 f (by simpa using (by omega : (cs ++ post).length < f)),
        endPrevWord_cons]

theorem getD_append_last {v post : List Char} (hv : v ≠ []) (c0 : Char) :
    (v ++ post).getD (v.length - 1) c0 = v.getLastD c0 := by
  induction v generalizing c0 with
  | nil => exact absurd rfl hv
  | cons c cs ih =>
    cases cs with
    | nil => rfl
    | cons d ds =>
      have hne : (d :: ds : List Char) ≠ [] := by simp
      show ((c :: d :: ds) ++ post).getD ((c :: d :: ds).length - 1) c0 = _
      have hidx : (c :: d :: ds).length - 1 = ((d :: ds).length - 1) + 1 := by
        simp
      rw [hidx, show ((c :: d :: ds) ++ post) = c :: ((d :: ds) ++ post) from rfl,
        List.getD_cons_succ, ih hne c0, List.getLastD_cons c0 d ds,
        List.getLastD_cons c0 c (d :: ds), List.getLastD_cons c d ds]

theorem endPrevWord_eq_getLastD {v : List Char} (hv : v ≠ []) (b : Bool) (c0 : Char) :
    endPrevWord b v = isWordC (v.getLastD c0) := by
  unfold endPrevWord
  cases h : v.getLast? with
  | none =>
    rw [List.getLast?_eq_none_iff] at h
    exact absurd h hv
  | some e =>
    have : v.getLastD c0 = e := by
      rw [List.getLastD_eq_getLast?, h]
      rfl
  -- fallthrough
    rw [this]

theorem reSubGo_match {m : Matcher} {repl post : List Char} {v : List Char}
    {prev : Bool} (hm : m prev (v ++ post) = some v.length) (hv : v ≠ []) :
    ∀ (fuel : Nat), (v ++ post).length < fuel →
      reSubGo m repl fuel prev (v ++ post) =
        repl ++ reSubGo m repl (post.length + 1) (endPrevWord prev v) post := by
  intro fuel hf
  cases v with
  | nil => exact absurd rfl hv
  | cons c cs =>
    cases fuel with
    | zero => simp at hf
    | succ f =>
      have hm' : m prev (c :: (cs ++ post)) = some (cs.length + 1) := by
        rw [show (c :: (cs ++ post)) = ((c :: cs) ++ post) from rfl, hm]
        rfl
      show reSubGo m repl (f + 1) prev (c :: (cs ++ post)) = _
      simp only [reSubGo, hm']
      have hdrop : (c :: (cs ++ post)).drop (cs.length + 1) = post := by
        rw [show (c :: (cs ++ post)) = ((c :: cs) ++ post) from rfl]
        rw [show cs.length + 1 = (c :: cs).length from rfl]
        exact List.drop_left (c :: cs) post
      have hgetD : (c :: (cs ++ post)).getD cs.length c = (c :: cs).getLastD c := by
        have := @getD_append_last (c :: cs) post (by simp) c
        simpa using this
      rw [hdrop, hgetD]
      have hlen : post.length < f := by
        simp only [List.cons_append, List.length_cons, List.length_append] at hf
        omega
      rw [reSubGo_fuel f (post.length + 1) _ post hlen (by omega)]
      rw [endPrevWord_eq_getLastD (by simp : (c :: cs : List Char) ≠ []) prev c]

/-! ## Template well-formedness consequences -/

theorem passRepl_noDigits (j : Nat) : noDigits (passRepl j) = true :=
  match j with
  | 0 => rfl
  | 1 => rfl
  | 2 => rfl
  | 3 => rfl
  | 4 => rfl
  | _ + 5 => rfl

theorem passRepl_head (j : Nat) : (passRepl j).head? = some '[' :=
  match j with
  | 0 => rfl
  | 1 => rfl
  | 2 => rfl
  | 3 => rfl
  | 4 => rfl
  | _ + 5 => rfl

theorem valueOk_matches {k : SlotKind} {v : List Char} (h : valueOk k v = true) :
    passMatcher (kindIdx k) false v = some v.length := by
  have h1 : matchesFully (passMatcher (kindIdx k)) v = true := by
    simp only [valueOk, Bool.and_eq_true] at h
    exact h.1
  simpa [matchesFully] using h1

theorem valueOk_inert {k : SlotKind} {v : List Char} (h : valueOk k v = true)
    {j : Nat} (hj : j < kindIdx k) :
    noMatchIn (passMatcher j) false v = true := by
  simp only [valueOk, Bool.and_eq_true, List.all_eq_true] at h
  exact h.2 j (List.mem_range.mpr hj)

theorem valueOk_ne_nil {k : SlotKind} {v : List Char} (h : valueOk k v = true) :
    v ≠ [] := by
  intro he
  subst he
  have := valueOk_matches h
  rw [passMatcher_nil] at this
  cases this

theorem valueOk_head_digit {k : SlotKind} {v : List Char} (h : valueOk k v = true) :
    ∃ c cs, v = c :: cs ∧ isDigitC c = true := by
  cases hv : v with
  | nil => exact absurd hv (valueOk_ne_nil h)
  | cons c cs =>
    refine ⟨c, cs, rfl, ?_⟩
    by_contra hc
    have hc' : isDigitC c = false := by
      cases hx : isDigitC c
      · rfl
      · exact absurd hx hc
    have := valueOk_matches h
    rw [hv, passMatcher_nondigit (kindIdx k) hc'] at this
    cases this

theorem dropWhile_append_cases (p : Char → Bool) (l t : List Char) :
    (l ++ t).dropWhile p =
      (if l.dropWhile p = [] then t.dropWhile p else l.dropWhile p ++ t) := by
  induction l with
  | nil => simp
  | cons c cs ih =>
    by_cases hc : p c
    · simp only [List.cons_append, List.dropWhile_cons, hc, if_true]
      rw [ih]
    · simp [List.dropWhile_cons, hc]

theorem finalLitOk_noDigits {lit : List Char} (h : finalLitOk lit = true) :
    noDigits lit = true := by
  cases lit with
  | nil => rfl
  | cons c cs =>
    simp only [finalLitOk, List.isEmpty_cons, Bool.false_or, Bool.and_eq_true] at h
    exact h.1.2

theorem interLitOk_parts {lit : List Char} (h : interLitOk lit = true) :
    2 ≤ lit.length ∧ lit.headD 'x' = ' ' ∧ endsSp lit = true ∧
      noDigits lit = true ∧ unitFreeHead lit = true := by
  simp only [interLitOk, Bool.and_eq_true, decide_eq_true_eq, beq_iff_eq] at h
  exact ⟨h.1.1.1.1, h.1.1.1.2, h.1.1.2, h.1.2, h.2⟩

theorem renderTail_head_cons (side : Bool) (j : Nat) (s : Slot) (lit : List Char)
    (rest : List (Slot × List Char))
    (hv : valueOk s.kind (slotVal side s) = true) :
    ∃ c t, renderTail side j ((s, lit) :: rest) = c :: t ∧
      (c = '[' ∨ isDigitC c = true) := by
  show ∃ c t, ((if kindIdx s.kind < j then passRepl (kindIdx s.kind) else slotVal side s) ++
    lit ++ renderTail side j rest) = c :: t ∧ _
  by_cases hk : kindIdx s.kind < j
  · rw [if_pos hk]
    cases hr : passRepl (kindIdx s.kind) with
    | nil =>
      have := passRepl_head (kindIdx s.kind)
      rw [hr] at this
      cases this
    | cons c t =>
      have hc : c = '[' := by
        have := passRepl_head (kindIdx s.kind)
        rw [hr] at this
        simpa using this
      exact ⟨c, t ++ lit ++ renderTail side j rest, by simp, Or.inl hc⟩
  · rw [if_neg hk]
    obtain ⟨c, cs, he, hd⟩ := valueOk_head_digit hv
    exact ⟨c, cs ++ lit ++ renderTail side j rest, by simp [he], Or.inr hd⟩

theorem isDigitC_ne {c : Char} (h : isDigitC c = true) {d : Char}
    (hd : isDigitC d = false) : (c == d) = false := by
  cases hx : c == d
  · rfl
  · have he : c = d := by simpa using hx
    rw [he] at h
    rw [h] at hd
    cases hd

theorem isDigitC_not_space {c : Char} (h : isDigitC c = true) :
    isSpaceC c = false := by
  simp only [isSpaceC,
    isDigitC_ne h (show isDigitC ' ' = false by decide),
    isDigitC_ne h (show isDigitC '\t' = false by decide),
    isDigitC_ne h (show isDigitC '\n' = false by decide),
    isDigitC_ne h (show isDigitC '\r' = false by decide),
    isDigitC_ne h (show isDigitC '\x0c' = false by decide),
    isDigitC_ne h (show isDigitC '\x0b' = false by decide), Bool.or_self,
    Bool.or_false]

theorem isDigitC_not_unit {c : Char} (h : isDigitC c = true) :
    (!(c == 'M' || c == 'G' || c == 'K' || c == 'b' || c == 'm')) = true := by
  simp only [isDigitC_ne h (show isDigitC 'M' = false by decide),
    isDigitC_ne h (show isDigitC 'G' = false by decide),
    isDigitC_ne h (show isDigitC 'K' = false by decide),
    isDigitC_ne h (show isDigitC 'b' = false by decide),
    isDigitC_ne h (show isDigitC 'm' = false by decide), Bool.or_self,
    Bool.or_false]
  rfl

theorem noDigits_tail {c : Char} {cs : List Char}
    (h : noDigits (c :: cs) = true) : cs.all (fun x => !isDigitC x) = true := by
  have hx : (!isDigitC c) = true ∧ cs.all (fun x => !isDigitC x) = true := by
    simpa [noDigits, List.all_cons, Bool.and_eq_true] using h
  exact hx.2

theorem postOk_of_finalLitOk {lit : List Char} (h : finalLitOk lit = true) :
    postOk lit = true := by
  cases lit with
  | nil => rfl
  | cons c cs =>
    simp only [finalLitOk, List.isEmpty_cons, Bool.false_or, Bool.and_eq_true,
      beq_iff_eq] at h
    obtain ⟨⟨hd, hnd⟩, hu⟩ := h
    have hc : c = ' ' := by simpa using hd
    subst hc
    cases cs with
    | nil => rfl
    | cons c2 more =>
      have hx : (!isDigitC c2) = true ∧ more.all (fun x => !isDigitC x) = true := by
        simpa [List.all_cons, Bool.and_eq_true] using noDigits_tail hnd
      show postOk (' ' :: c2 :: more) = true
      simp only [postOk, Bool.and_eq_true]
      exact ⟨⟨rfl, hx.1⟩, hu⟩

theorem postOk_build (side : Bool) (j : Nat) (lit : List Char)
    (rest : List (Slot × List Char))
    (hlit : (if rest.isEmpty then finalLitOk lit else interLitOk lit) = true)
    (hrest : tailOk rest = true) :
    postOk (lit ++ renderTail side j rest) = true := by
  cases rest with
  | nil =>
    show postOk (lit ++ ([] : List Char)) = true
    rw [List.append_nil]
    exact postOk_of_finalLitOk (by simpa using hlit)
  | cons p r2 =>
    obtain ⟨s2, lit2⟩ := p
    have hv2 : valueOk s2.kind (slotVal side s2) = true := by
      simp only [tailOk, Bool.and_eq_true] at hrest
      cases side
      · exact hrest.1.1.2
      · exact hrest.1.1.1
    obtain ⟨hlen, hhead, hsp, hnd, hu⟩ := interLitOk_parts (by simpa using hlit)
    obtain ⟨ch, t, hr, hch⟩ := renderTail_head_cons side j s2 lit2 r2 hv2
    have hchns : isSpaceC ch = false := by
      rcases hch with h | h
      · rw [h]
        rfl
      · exact isDigitC_not_space h
    have hchnu : (!(ch == 'M' || ch == 'G' || ch == 'K' || ch == 'b' || ch == 'm')) = true := by
      rcases hch with h | h
      · rw [h]
        rfl
      · exact isDigitC_not_unit h
    cases lit with
    | nil => simp at hlen
    | cons c1 cs =>
      have hc1 : c1 = ' ' := by simpa using hhead
      subst hc1
      have hsecond : (match cs ++ renderTail side j ((s2, lit2) :: r2) with
          | [] => true | d :: _ => !isDigitC d) = true := by
        cases cs with
        | nil => simp at hlen
        | cons c2 more =>
          show (!isDigitC c2) = true
          have hx : (!isDigitC c2) = true ∧ more.all (fun x => !isDigitC x) = true := by
            simpa [List.all_cons, Bool.and_eq_true] using noDigits_tail hnd
          exact hx.1
      have hufh : unitFreeHead ((' ' :: cs) ++ renderTail side j ((s2, lit2) :: r2)) = true := by
        unfold unitFreeHead
        rw [dropWhile_append_cases]
        by_cases hdw : (' ' :: cs).dropWhile isSpaceC = []
        · rw [if_pos hdw, hr, List.dropWhile_cons, hchns]
          exact hchnu
        · rw [if_neg hdw]
          cases hdw2 : (' ' :: cs).dropWhile isSpaceC with
          | nil => exact absurd hdw2 hdw
          | cons d t' =>
            unfold unitFreeHead at hu
            rw [hdw2] at hu
            exact hu
      show postOk (' ' :: (cs ++ renderTail side j ((s2, lit2) :: r2))) = true
      simp only [postOk, Bool.and_eq_true]
      refine ⟨⟨rfl, hsecond⟩, ?_⟩
      exact hufh

theorem reSubGo_nil (m : Matcher) (repl : List Char) (prev : Bool) {fuel : Nat}
    (hf : 0 < fuel) : reSubGo m repl fuel prev [] = [] := by
  cases fuel with
  | zero => omega
  | succ f => rfl

theorem renderTail_pass (side : Bool) (j : Nat) :
    ∀ (rest : List (Slot × List Char)), tailOk rest = true →
    ∀ (fuel : Nat), (renderTail side j rest).length < fuel →
      reSubGo (passMatcher j) (passRepl j) fuel false (renderTail side j rest) =
        renderTail side (j + 1) rest := by
  intro rest
  induction rest with
  | nil =>
    intro _ fuel hf
    exact reSubGo_nil _ _ _ (by simpa [renderTail] using hf)
  | cons p r2 ih =>
    obtain ⟨s, lit⟩ := p
    intro hok fuel hf
    have hparts : valueOk s.kind s.v1 = true ∧ valueOk s.kind s.v2 = true ∧
        (if r2.isEmpty then finalLitOk lit else interLitOk lit) = true ∧
        tailOk r2 = true := by
      simp only [tailOk, Bool.and_eq_true, and_assoc] at hok
      exact hok
    have hv : valueOk s.kind (slotVal side s) = true := by
      cases side
      · exact hparts.2.1
      · exact hparts.1
    have hlitnd : noDigits lit = true := by
      cases r2 with
      | nil => exact finalLitOk_noDigits (by simpa using hparts.2.2.1)
      | cons q r3 => exact (interLitOk_parts (by simpa using hparts.2.2.1)).2.2.2.1
    have hpost : postOk (lit ++ renderTail side j r2) = true :=
      postOk_build side j lit r2 hparts.2.2.1 hparts.2.2.2
    have htail : ∀ (b : Bool),
        reSubGo (passMatcher j) (passRepl j) ((lit ++ renderTail side j r2).length + 1)
          b (lit ++ renderTail side j r2) =
        lit ++ renderTail side (j + 1) r2 := by
      intro b
      rw [reSubGo_clear_noDigits (fun pv c l hc => passMatcher_nondigit j hc pv l) lit hlitnd
        (renderTail side j r2) b ((lit ++ renderTail side j r2).length + 1)
        (by omega)]
      cases r2 with
      | nil =>
        rw [show renderTail side j ([] : List (Slot × List Char)) = [] from rfl,
          show renderTail side (j + 1) ([] : List (Slot × List Char)) = [] from rfl,
          reSubGo_nil _ _ _ (by omega)]
      | cons q r3 =>
        have hlp := interLitOk_parts (by simpa using hparts.2.2.1)
        have hlitne : lit ≠ [] := by
          intro he
          rw [he] at hlp
          simp at hlp
        rw [endPrevWord_endsSp hlp.2.2.1 hlitne]
        rw [ih hparts.2.2.2 ((renderTail side j (q :: r3)).length + 1) (by omega)]
    rcases Nat.lt_trichotomy (kindIdx s.kind) j with hlt | heq | hgt
    · -- already replaced: placeholder is scanned through unchanged
      have hseg : renderTail side j ((s, lit) :: r2) =
          passRepl (kindIdx s.kind) ++ (lit ++ renderTail side j r2) := by
        show ((if kindIdx s.kind < j then passRepl (kindIdx s.kind) else slotVal side s) ++
          lit ++ renderTail side j r2) = _
        rw [if_pos hlt, List.append_assoc]
      have hseg' : renderTail side (j + 1) ((s, lit) :: r2) =
          passRepl (kindIdx s.kind) ++ (lit ++ renderTail side (j + 1) r2) := by
        show ((if kindIdx s.kind < j + 1 then passRepl (kindIdx s.kind) else slotVal side s) ++
          lit ++ renderTail side (j + 1) r2) = _
        rw [if_pos (by omega), List.append_assoc]
      rw [hseg] at hf ⊢
      rw [hseg']
      rw [reSubGo_clear_noDigits (fun pv c l hc => passMatcher_nondigit j hc pv l)
        (passRepl (kindIdx s.kind))
        (passRepl_noDigits _) (lit ++ renderTail side j r2) false fuel hf,
        htail]
    · -- this pass replaces the value
      have hseg : renderTail side j ((s, lit) :: r2) =
          slotVal side s ++ (lit ++ renderTail side j r2) := by
        show ((if kindIdx s.kind < j then passRepl (kindIdx s.kind) else slotVal side s) ++
          lit ++ renderTail side j r2) = _
        rw [if_neg (by omega), List.append_assoc]
      have hseg' : renderTail side (j + 1) ((s, lit) :: r2) =
          passRepl j ++ (lit ++ renderTail side (j + 1) r2) := by
        show ((if kindIdx s.kind < j + 1 then passRepl (kindIdx s.kind) else slotVal side s) ++
          lit ++ renderTail side (j + 1) r2) = _
        rw [if_pos (by omega), heq, List.append_assoc]
      rw [hseg] at hf ⊢
      rw [hseg']
      have hm : passMatcher j false (slotVal side s ++ (lit ++ renderTail side j r2)) =
          some (slotVal side s).length := by
        rw [passMatcher_append j hpost false (slotVal side s)]
        rw [← heq]
        exact valueOk_matches hv
      rw [reSubGo_match hm (valueOk_ne_nil hv) fuel hf, htail]
    · -- later pass: the value is inert under this pass
      have hseg : renderTail side j ((s, lit) :: r2) =
          slotVal side s ++ (lit ++ renderTail side j r2) := by
        show ((if kindIdx s.kind < j then passRepl (kindIdx s.kind) else slotVal side s) ++
          lit ++ renderTail side j r2) = _
        rw [if_neg (by omega), List.append_assoc]
      have hseg' : renderTail side (j + 1) ((s, lit) :: r2) =
          slotVal side s ++ (lit ++ renderTail side (j + 1) r2) := by
        show ((if kindIdx s.kind < j + 1 then passRepl (kindIdx s.kind) else slotVal side s) ++
          lit ++ renderTail side (j + 1) r2) = _
        rw [if_neg (by omega), List.append_assoc]
      rw [hseg] at hf ⊢
      rw [hseg']
      rw [reSubGo_clear_inert (passMatcher_append j hpost) (slotVal side s) false
        (valueOk_inert hv hgt) fuel hf, htail]

theorem renderFrom_pass (side : Bool) (j : Nat) (t : Template)
    (ht : templateOk t = true) (fuel : Nat)
    (hf : (renderFrom side j t).length < fuel) :
    reSubGo (passMatcher j) (passRepl j) fuel false (renderFrom side j t) =
      renderFrom side (j + 1) t := by
  obtain ⟨lit0, rest⟩ := t
  have hp : noDigits lit0 = true ∧ (rest.isEmpty || endsSp lit0) = true ∧
      tailOk rest = true := by
    simpa [templateOk, Bool.and_eq_true, and_assoc] using ht
  show reSubGo (passMatcher j) (passRepl j) fuel false (lit0 ++ renderTail side j rest) =
    lit0 ++ renderTail side (j + 1) rest
  have hf' : (lit0 ++ renderTail side j rest).length < fuel := hf
  rw [reSubGo_clear_noDigits (fun pv c l hc => passMatcher_nondigit j hc pv l) lit0 hp.1
    (renderTail side j rest) false fuel hf']
  cases rest with
  | nil =>
    rw [show renderTail side j ([] : List (Slot × List Char)) = [] from rfl,
      show renderTail side (j + 1) ([] : List (Slot × List Char)) = [] from rfl,
      reSubGo_nil _ _ _ (by omega)]
  | cons q r2 =>
    have hsp : endsSp lit0 = true := by simpa using hp.2.1
    have hprev : endPrevWord false lit0 = false := by
      cases hl : lit0 with
      | nil => rfl
      | cons a as => exact endPrevWord_endsSp (hl ▸ hsp) (by simp) false
    rw [hprev, renderTail_pass side j (q :: r2) hp.2.2 _ (by omega)]

theorem renderTail_six_indep (j : Nat) (h6 : 6 ≤ j) :
    ∀ (rest : List (Slot × List Char)), renderTail true j rest = renderTail false j rest := by
  intro rest
  induction rest with
  | nil => rfl
  | cons p r ih =>
    obtain ⟨s, lit⟩ := p
    have hki : kindIdx s.kind < j := by
      have h5 : kindIdx s.kind ≤ 5 := by cases s.kind <;> decide
      omega
    show ((if kindIdx s.kind < j then passRepl (kindIdx s.kind) else slotVal true s) ++
        lit ++ renderTail true j r) =
      ((if kindIdx s.kind < j then passRepl (kindIdx s.kind) else slotVal false s) ++
        lit ++ renderTail false j r)
    rw [if_pos hki, if_pos hki, ih]

/-- C9. The normalization-equivalence claim is false as stated for
arbitrary pairs of messages differing only in an embedded value: here
two messages differ only in the concrete IPv4 address they embed (both
values are complete, well-delimited IPv4 addresses on their own), yet
normalize_message maps them to different canonical strings, because the
earlier percentage pass consumes the tail of one address but not the
other. -/
theorem claim_C9_counterexample :
    valueOk SlotKind.ip "1.2.3.45".toList = true ∧
    valueOk SlotKind.ip "8.8.8.8".toList = true ∧
    normalize_message (String.mk (renderFrom true 0 ("host ".toList,
      [(⟨SlotKind.ip, "1.2.3.45".toList, "8.8.8.8".toList⟩, "% loss".toList)]))) ≠
    normalize_message (String.mk (renderFrom false 0 ("host ".toList,
      [(⟨SlotKind.ip, "1.2.3.45".toList, "8.8.8.8".toList⟩, "% loss".toList)]))) := by
  refine ⟨by decide, by decide, by decide⟩

/-- C9. Restricted normalization equivalence: for every well-formed
template (literal text that is digit-free, space-delimited around the
slots and free of size/duration unit tokens right after a slot, with
each embedded value matching its own pass's pattern exactly and inert
under the earlier passes), the two messages obtained by instantiating
the slots with the two value sets normalize to the same canonical
string, the six substitutions being applied in the source order. -/
theorem claim_C9 (t : Template) (ht : templateOk t = true) :
    normalize_message (String.mk (renderFrom true 0 t)) =
      normalize_message (String.mk (renderFrom false 0 t)) := by
  have hchain : ∀ side : Bool,
      pyReSub matchIp ("[IP]".toList) (pyReSub matchDuration ("[DURATION]".toList)
        (pyReSub matchSize ("[SIZE]".toList) (pyReSub matchPercent ("[PERCENTAGE]".toList)
          (pyReSub matchTime ("[TIME]".toList) (pyReSub matchTimestamp ("[TIMESTAMP]".toList)
            (renderFrom side 0 t)))))) = renderFrom side 6 t := by
    intro side
    have h0 : pyReSub matchTimestamp ("[TIMESTAMP]".toList) (renderFrom side 0 t) =
        renderFrom side 1 t :=
      renderFrom_pass side 0 t ht ((renderFrom side 0 t).length + 1) (by omega)
    rw [h0]
    have h1 : pyReSub matchTime ("[TIME]".toList) (renderFrom side 1 t) =
        renderFrom side 2 t :=
      renderFrom_pass side 1 t ht ((renderFrom side 1 t).length + 1) (by omega)
    rw [h1]
    have h2 : pyReSub matchPercent ("[PERCENTAGE]".toList) (renderFrom side 2 t) =
        renderFrom side 3 t :=
      renderFrom_pass side 2 t ht ((renderFrom side 2 t).length + 1) (by omega)
    rw [h2]
    have h3 : pyReSub matchSize ("[SIZE]".toList) (renderFrom side 3 t) =
        renderFrom side 4 t :=
      renderFrom_pass side 3 t ht ((renderFrom side 3 t).length + 1) (by omega)
    rw [h3]
    have h4 : pyReSub matchDuration ("[DURATION]".toList) (renderFrom side 4 t) =
        renderFrom side 5 t :=
      renderFrom_pass side 4 t ht ((renderFrom side 4 t).length + 1) (by omega)
    rw [h4]
    have h5 : pyReSub matchIp ("[IP]".toList) (renderFrom side 5 t) =
        renderFrom side 6 t :=
      renderFrom_pass side 5 t ht ((renderFrom side 5 t).length + 1) (by omega)
    rw [h5]
  have h6 : renderFrom true 6 t = renderFrom false 6 t := by
    show t.1 ++ renderTail true 6 t.2 = t.1 ++ renderTail false 6 t.2
    rw [renderTail_six_indep 6 (by omega) t.2]
  show String.mk ((pyStripL (pyReSub matchWs [' ']
      (pyReSub matchIp ("[IP]".toList) (pyReSub matchDuration ("[DURATION]".toList)
        (pyReSub matchSize ("[SIZE]".toList) (pyReSub matchPercent ("[PERCENTAGE]".toList)
          (pyReSub matchTime ("[TIME]".toList) (pyReSub matchTimestamp ("[TIMESTAMP]".toList)
            (renderFrom true 0 t))))))))).map Char.toLower) =
    String.mk ((pyStripL (pyReSub matchWs [' ']
      (pyReSub matchIp ("[IP]".toList) (pyReSub matchDuration ("[DURATION]".toList)
        (pyReSub matchSize ("[SIZE]".toList) (pyReSub matchPercent ("[PERCENTAGE]".toList)
          (pyReSub matchTime ("[TIME]".toList) (pyReSub matchTimestamp ("[TIMESTAMP]".toList)
            (renderFrom false 0 t))))))))).map Char.toLower)
  rw [hchain true, hchain false, h6]

/-- C9. A concrete well-formed template exercising a percentage, an
IPv4 address with port, and a millisecond duration: both renderings
normalize to the same canonical string. -/
theorem claim_C9_witness :
    templateOk ("cpu at ".toList,
      [(⟨SlotKind.percent, "95.2%".toList, "10.0%".toList⟩, " on host ".toList),
       (⟨SlotKind.ip, "10.0.0.1:8080".toList, "192.168.1.77".toList⟩, " took ".toList),
       (⟨SlotKind.duration, "30 ms".toList, "123ms".toList⟩, [])]) = true ∧
    normalize_message (String.mk (renderFrom true 0 ("cpu at ".toList,
      [(⟨SlotKind.percent, "95.2%".toList, "10.0%".toList⟩, " on host ".toList),
       (⟨SlotKind.ip, "10.0.0.1:8080".toList, "192.168.1.77".toList⟩, " took ".toList),
       (⟨SlotKind.duration, "30 ms".toList, "123ms".toList⟩, [])]))) =
    normalize_message (String.mk (renderFrom false 0 ("cpu at ".toList,
      [(⟨SlotKind.percent, "95.2%".toList, "10.0%".toList⟩, " on host ".toList),
       (⟨SlotKind.ip, "10.0.0.1:8080".toList, "192.168.1.77".toList⟩, " took ".toList),
       (⟨SlotKind.duration, "30 ms".toList, "123ms".toList⟩, [])]))) :=
  ⟨by decide, claim_C9 ("cpu at ".toList,
      [(⟨SlotKind.percent, "95.2%".toList, "10.0%".toList⟩, " on host ".toList),
       (⟨SlotKind.ip, "10.0.0.1:8080".toList, "192.168.1.77".toList⟩, " took ".toList),
       (⟨SlotKind.duration, "30 ms".toList, "123ms".toList⟩, [])]) (by decide)⟩
